import Mathlib

/-!
# LOESS smoothing (package `lowess`): embedding and verification

The Go source works on `float64`.  A value of the embedding is a finite number,
kept as the rational it stands for, or one of the IEEE 754 special values
`+Inf`, `-Inf` and `NaN`.  Every arithmetic operation on finite numbers computes
the exact result and rounds it to the nearest binary64 number, ties to even,
with gradual underflow and overflow to an infinity, as the hardware does; each
operation is rounded on its own (a product and a sum are not fused, as the Go
compiler leaves them on amd64).  Every comparison with `NaN` is false, `NaN`
propagates, and `0/0 = NaN`.  The two zeros of IEEE 754 are one value here: the
program divides only by an absolute value and by sums accumulated from `+0`,
which are never the negative zero, and nowhere else does the sign of a zero
change a result.

Go slices are passed by reference to their backing array, and `sort.Sort`
reorders that array in place; a function that sorts its argument therefore
returns, next to its Go results, the contents of the caller's slice after the
call.  A run-time panic (index out of range) is an outcome of its own.
-/

namespace Lowess

/-! ## Numbers -/

/-- A `float64` value: a finite number or one of the IEEE special values. -/
inductive F64 where
  | fin (q : ℚ)
  | pinf
  | ninf
  | nan
  deriving DecidableEq

namespace F64

/-- The power of two `2^k` for an integer `k`. -/
def pow2 (k : ℤ) : ℚ :=
  if 0 ≤ k then ((2 ^ k.toNat : ℕ) : ℚ) else mkRat 1 (2 ^ (-k).toNat)

/-- Halving `n` until it is below 2 and counting the halvings in `k` (`fuel`
bounds the number of halvings; `n` itself is always enough). -/
def log2Fuel : ℕ → ℕ → ℕ → ℕ
  | 0, _, k => k
  | fuel + 1, n, k => if n < 2 then k else log2Fuel fuel (n / 2) (k + 1)

/-- The binary exponent of a positive natural number: the `k` with
`2^k <= n < 2^(k+1)`. -/
def log2 (n : ℕ) : ℕ := log2Fuel n n 0

/-- The binary exponent of a non-zero rational: the `k` with
`2^k <= |q| < 2^(k+1)`. -/
def ilog2 (q : ℚ) : ℤ :=
  let a := q.num.natAbs
  let b := q.den
  let k : ℤ := (log2 a : ℤ) - (log2 b : ℤ)
  if 0 ≤ k then (if b * 2 ^ k.toNat ≤ a then k else k - 1)
  else (if b ≤ a * 2 ^ (-k).toNat then k else k - 1)

/-- The quotient `N / M` of two naturals rounded to the nearest integer, a tie
going to the even neighbour. -/
def roundHalfEven (N M : ℕ) : ℕ :=
  let f := N / M
  let r := N % M
  if 2 * r < M then f else if M < 2 * r then f + 1 else if f % 2 = 0 then f else f + 1

/-- The magnitude of a non-zero rational rounded to 53 significant bits, to
nearest and ties to even; below the smallest exponent `-1022` the spacing stays
`2^-1074`, so small numbers lose bits and the smallest round to 0. -/
def magnitude64 (q : ℚ) : ℚ :=
  let a := q.num.natAbs
  let b := q.den
  let t : ℤ := max (ilog2 q) (-1022) - 52
  let n : ℕ :=
    if 0 ≤ t then roundHalfEven a (b * 2 ^ t.toNat) else roundHalfEven (a * 2 ^ (-t).toNat) b
  (n : ℚ) * pow2 t

/-- Rounding to binary64: the rounded magnitude with the sign of `q`, and an
infinity when the rounded magnitude reaches `2^1024`. -/
def round64 (q : ℚ) : F64 :=
  if q = 0 then fin 0
  else if pow2 1024 ≤ magnitude64 q then (if 0 < q then pinf else ninf)
  else if 0 < q then fin (magnitude64 q) else fin (-magnitude64 q)

/-- Unary minus. -/
def neg : F64 → F64
  | fin q => fin (-q)
  | pinf => ninf
  | ninf => pinf
  | nan => nan

/-- Go `a + b`: the rounded sum; opposite infinities give `NaN`. -/
def add : F64 → F64 → F64
  | fin a, fin b => round64 (a + b)
  | nan, _ => nan
  | _, nan => nan
  | pinf, ninf => nan
  | ninf, pinf => nan
  | pinf, _ => pinf
  | _, pinf => pinf
  | ninf, _ => ninf
  | _, ninf => ninf

/-- Go `a - b`. -/
def sub (a b : F64) : F64 := add a (neg b)

/-- An infinity with the sign of `q`, and `NaN` for `q = 0` (as in `Inf * 0`). -/
def signedInf (q : ℚ) : F64 :=
  if q = 0 then nan else if 0 < q then pinf else ninf

/-- Go `a * b`: the rounded product; an infinity times zero is `NaN`. -/
def mul : F64 → F64 → F64
  | fin a, fin b => round64 (a * b)
  | nan, _ => nan
  | _, nan => nan
  | pinf, fin b => signedInf b
  | fin a, pinf => signedInf a
  | ninf, fin b => signedInf (-b)
  | fin a, ninf => signedInf (-a)
  | pinf, pinf => pinf
  | ninf, ninf => pinf
  | pinf, ninf => ninf
  | ninf, pinf => ninf

/-- Go `a / b`: the rounded quotient.  A zero divisor is the positive zero (the
divisors of this program are an absolute value and sums accumulated from `+0`,
which are never the negative zero): `0/0 = NaN` and `a/0` is the infinity with
the sign of `a`. -/
def div : F64 → F64 → F64
  | fin a, fin b => if b = 0 then signedInf a else round64 (a / b)
  | nan, _ => nan
  | _, nan => nan
  | fin _, pinf => fin 0
  | fin _, ninf => fin 0
  | pinf, fin b => if 0 ≤ b then pinf else ninf
  | ninf, fin b => if 0 ≤ b then ninf else pinf
  | pinf, pinf => nan
  | pinf, ninf => nan
  | ninf, pinf => nan
  | ninf, ninf => nan

/-- Go `math.Abs`. -/
def abs : F64 → F64
  | fin q => fin |q|
  | pinf => pinf
  | ninf => pinf
  | nan => nan

/-- Go `a < b`: false as soon as one side is `NaN`. -/
def lt : F64 → F64 → Bool
  | fin a, fin b => decide (a < b)
  | nan, _ => false
  | _, nan => false
  | ninf, ninf => false
  | ninf, _ => true
  | pinf, _ => false
  | fin _, pinf => true
  | fin _, ninf => false

/-- Go `a <= b`: false as soon as one side is `NaN`. -/
def le : F64 → F64 → Bool
  | fin a, fin b => decide (a ≤ b)
  | nan, _ => false
  | _, nan => false
  | ninf, _ => true
  | pinf, pinf => true
  | pinf, _ => false
  | fin _, pinf => true
  | fin _, ninf => false

/-- Go `a > b`. -/
def gt (a b : F64) : Bool := lt b a

/-- Go `a >= b`. -/
def ge (a b : F64) : Bool := le b a

/-- Go `a == b`: `NaN` is equal to nothing, itself included. -/
def eq : F64 → F64 → Bool
  | fin a, fin b => decide (a = b)
  | pinf, pinf => true
  | ninf, ninf => true
  | _, _ => false

instance : Neg F64 := ⟨neg⟩
instance : Add F64 := ⟨add⟩
instance : Sub F64 := ⟨sub⟩
instance : Mul F64 := ⟨mul⟩
instance : Div F64 := ⟨div⟩

/-- The loop of Go `math.Pow` over the bits of the integral exponent `i`:
the answer is kept as `a1 * 2^ae` and the running square as `x1 * 2^xe`, with
`x1` renormalised into `[1/2, 1)`; every product is a rounded `float64` product.
`fuel` bounds the number of iterations (`i` is halved each time, so `i`
iterations are always enough). -/
def powLoop : ℕ → ℕ → F64 → ℤ → F64 → ℤ → F64 × ℤ
  | 0, _, a1, ae, _, _ => (a1, ae)
  | fuel + 1, i, a1, ae, x1, xe =>
    if i = 0 then (a1, ae)
    else if xe < -4096 ∨ 4096 < xe then (a1, ae + xe)
    else
      let a2 := if i % 2 = 1 then a1 * x1 else a1
      let ae2 := if i % 2 = 1 then ae + xe else ae
      let x2 := x1 * x1
      if lt x2 (fin (1 / 2)) then powLoop fuel (i / 2) a2 ae2 (x2 + x2) (2 * xe - 1)
      else powLoop fuel (i / 2) a2 ae2 x2 (2 * xe)

/-- Go `math.Ldexp(frac, exp)`: `frac * 2^exp`, rounded. -/
def ldexp : F64 → ℤ → F64
  | fin m, e => round64 (m * pow2 e)
  | x, _ => x

/-- Go `math.Pow(x, n)` for a natural exponent `n` (the program uses 2 and 3).
The special cases come first, in the order of the library: `Pow(x, 0) = 1` and
`Pow(1, n) = 1`, `Pow(x, 1) = x`, `Pow(NaN, n) = NaN`, `Pow(0, n) = 0`, and an
infinity keeps its sign for odd `n`.  Otherwise `x` is split by `Frexp` into a
mantissa in `[1/2, 1)` and an exponent, the loop multiplies the mantissas, and
`Ldexp` puts the exponent back. -/
def pow (x : F64) (n : ℕ) : F64 :=
  if n = 0 then fin 1 else
  match x with
  | fin q =>
    if q = 1 then fin 1
    else if n = 1 then fin q
    else if q = 0 then fin 0
    else
      let xe : ℤ := ilog2 q + 1
      let r := powLoop n n (fin 1) 0 (fin (q / pow2 xe)) xe
      ldexp r.1 r.2
  | pinf => pinf
  | ninf => if n % 2 = 1 then ninf else pinf
  | nan => nan

/-- The value is a finite number. -/
def isFinite : F64 → Bool
  | fin _ => true
  | _ => false

/-- The number a finite value stands for (and `0` for the special values). -/
def toRat : F64 → ℚ
  | fin q => q
  | _ => 0

end F64

/-! ## Outcomes of a Go call -/

/-- A Go `error` value: `none` is `nil`, `some msg` is `errors.New(msg)`. -/
abbrev GoError := Option String

/-- How a call ends: it returns its results, or the run time panics. -/
inductive Exec (α : Type) where
  | returned (a : α)
  | panicked (msg : String)
  deriving DecidableEq

/-! ## Data model -/

/-- `type Coord struct { X float64; Y float64 }`. -/
structure Coord where
  X : F64
  Y : F64
  deriving DecidableEq

/-- `type CoordSlice []Coord`: the contents of the slice. -/
abbrev CoordSlice := List Coord

/-- `func (s CoordSlice) Less(i, j int) bool`, on the two elements compared. -/
def CoordSlice.Less (a b : Coord) : Bool := F64.lt a.X b.X

/-- `type coordDist struct { coord Coord; dist float64 }`. -/
structure coordDist where
  coord : Coord
  dist : F64
  deriving DecidableEq

/-- `type coordDistSlice []coordDist`: the contents of the slice. -/
abbrev coordDistSlice := List coordDist

/-- `func (s coordDistSlice) Less(i, j int) bool`, on the two elements compared. -/
def coordDistSlice.Less (a b : coordDist) : Bool := F64.lt a.dist b.dist

/-! ## `sort.Sort` -/

/-- The inner loop of the insertion sort of Go's package `sort`,
`for j := i; j > a && data.Less(j, j-1); j-- { data.Swap(j, j-1) }`:
`x` is the element that starts at index `i` and `revPrefix` holds the elements
before it, nearest first.  The element moves left past every element it is
`Less` than and stops at the first one it is not. -/
def insertLeft {α : Type} (less : α → α → Bool) (x : α) : List α → List α
  | [] => [x]
  | y :: ys => if less x y then y :: insertLeft less x ys else x :: y :: ys

/-- The outer loop of the insertion sort: the elements are inserted one by one,
in slice order, into the already ordered part (kept nearest-first). -/
def insertionSortRev {α : Type} (less : α → α → Bool) (data : List α) : List α :=
  data.foldl (fun revPrefix x => insertLeft less x revPrefix) []

/-- Go `sort.Sort(data)`, which reorders `data` in place using `Less` and
`Swap`.  The standard library runs its insertion sort on slices of at most 12
elements and a pattern-defeating quicksort above; neither is stable by
contract.  The insertion sort stands for both: the general theorems below rest
on the result being a rearrangement of the input that is ordered by `Less`,
which is the contract of `sort.Sort`, and on the call being a function of the
contents of the slice; the evaluations at concrete inputs are on slices of at
most 12 elements, which the library sorts by this insertion sort. -/
def sortSort {α : Type} (less : α → α → Bool) (data : List α) : List α :=
  (insertionSortRev less data).reverse

/-! ## The functions of `lowess.go` -/

/-- `CoordsToArrays`: the x-values and the y-values, in slice order. -/
def CoordsToArrays (coords : List Coord) : List F64 × List F64 :=
  coords.foldl (fun acc c => (acc.1 ++ [c.X], acc.2 ++ [c.Y])) ([], [])

/-- `findDist`: `math.Abs(a - b)`. -/
def findDist (a b : F64) : F64 := F64.abs (a - b)

/-- `findMax`: the largest value, and `0.0` when none is larger than `0.0`. -/
def findMax (values : List F64) : F64 :=
  values.foldl (fun max value => if F64.gt value max then value else max) (F64.fin 0)

/-- The text of the error of `findNearest`. -/
def findNearestError : String := "findnearest: the bandwidth must be >0 and <=1"

/-- The text of the error of `CalcLOESS`. -/
def calcLOESSError : String := "CalcLOESS: the bandwidth must be >0 and <=1"

/-- The text of the error of `weightedMean`. -/
def weightedMeanError : String :=
  "regression: weighted mean requires equal length weight and value slices"

/-- The text of the error of `wLSRegression`. -/
def wLSRegressionError : String :=
  "regression: wls regressions requires coordinate and weight slices of equal length"

/-- The text of the panic of the Go run time on `s[len(s)-1]` for an empty `s`. -/
def indexPanic : String := "runtime error: index out of range [-1]"

/-- The selection loop of `findNearest`: the elements whose `X` lies in
`[minX, maxX]`, in slice order, each with its distance to `targetX`. -/
def selectWindow (sortedCoords : List Coord) (targetX minX maxX : F64) : coordDistSlice :=
  sortedCoords.foldl
    (fun distances c =>
      if F64.ge c.X minX && F64.le c.X maxX then
        distances ++ [{ coord := c, dist := findDist targetX c.X }]
      else distances)
    []

/-- `findNearest`.  The first component is the caller's slice after the call
(`sort.Sort(sortedCoords)` has reordered it unless the bandwidth was refused);
the second is the outcome: the Go results, or the panic of
`sortedCoords[len(sortedCoords)-1]` on an empty slice. -/
def findNearest (sortedCoords : CoordSlice) (targetX bandwidth : F64) :
    CoordSlice × Exec (coordDistSlice × GoError) :=
  if F64.le bandwidth (F64.fin 0) || F64.gt bandwidth (F64.fin 1) then
    (sortedCoords, Exec.returned ([], some findNearestError))
  else
    let sorted := sortSort CoordSlice.Less sortedCoords
    match sorted.getLast?, sorted.head? with
    | some last, some first =>
      let totalWidth := last.X - first.X
      let windowWidth := bandwidth * totalWidth
      let minX := targetX - windowWidth / F64.fin 2
      let maxX := targetX + windowWidth / F64.fin 2
      let distances := selectWindow sorted targetX minX maxX
      (sorted, Exec.returned (sortSort coordDistSlice.Less distances, none))
    | _, _ => (sorted, Exec.panicked indexPanic)

/-- `tricubeWeightFunction`: `maxDist` is the distance of the last element
(a panic when there is none), and the i-th weight is
`Pow(1 - Pow(Abs(dist_i / maxDist), 3), 3)`. -/
def tricubeWeightFunction (sortedCoordDists : coordDistSlice) : Exec (List F64) :=
  match sortedCoordDists.getLast? with
  | none => Exec.panicked indexPanic
  | some last =>
    let maxDist := last.dist
    Exec.returned
      (sortedCoordDists.map
        (fun cd => F64.pow (F64.fin 1 - F64.pow (F64.abs (cd.dist / maxDist)) 3) 3))

/-- `weightedMean`.  After the length check the two loops index `weights` and
`values` over the same range, so they run over the paired elements. -/
def weightedMean (values weights : List F64) : F64 × GoError :=
  if weights.length ≠ values.length then (F64.fin 0, some weightedMeanError)
  else
    let sumWeights := weights.foldl (fun s w => s + w) (F64.fin 0)
    let sumWeightedValues :=
      (values.zip weights).foldl (fun s vw => s + vw.1 * vw.2) (F64.fin 0)
    (sumWeightedValues / sumWeights, none)

/-- `wLSRegression`: slope, intercept and error.  After the length check
`weights`, `xCoords` and `yCoords` have the same length, so the loop over
`i < len(xCoords)` runs over the triples of elements at equal indices. -/
def wLSRegression (coordinates : coordDistSlice) (weights : List F64) :
    F64 × F64 × GoError :=
  if weights.length ≠ coordinates.length then
    (F64.fin 0, F64.fin 0, some wLSRegressionError)
  else
    let xCoords := coordinates.map (fun cd => cd.coord.X)
    let yCoords := coordinates.map (fun cd => cd.coord.Y)
    match weightedMean xCoords weights with
    | (_, some err) => (F64.fin 0, F64.fin 0, some err)
    | (weightedMeanX, none) =>
      match weightedMean yCoords weights with
      | (_, some err) => (F64.fin 0, F64.fin 0, some err)
      | (weightedMeanY, none) =>
        let sums := (weights.zip (xCoords.zip yCoords)).foldl
          (fun s wxy =>
            (s.1 + wxy.1 * (wxy.2.1 - weightedMeanX) * (wxy.2.2 - weightedMeanY),
             s.2 + wxy.1 * F64.pow (wxy.2.1 - weightedMeanX) 2))
          (F64.fin 0, F64.fin 0)
        let sumNumerator := sums.1
        let sumDenominator := sums.2
        let slope := if F64.eq sumDenominator (F64.fin 0) then F64.fin 0
                     else sumNumerator / sumDenominator
        let intercept := weightedMeanY - slope * weightedMeanX
        (slope, intercept, none)

/-- The loop of `CalcLOESS` over the estimation points still to process:
`coordinates` is the caller's slice as the calls so far have left it and
`loessPoints` the points appended so far. -/
def calcLoop (bandwidth : F64) :
    List F64 → CoordSlice → List Coord → CoordSlice × Exec (List Coord × GoError)
  | [], coordinates, loessPoints => (coordinates, Exec.returned (loessPoints, none))
  | q :: rest, coordinates, loessPoints =>
    match findNearest coordinates q bandwidth with
    | (coordinates1, Exec.panicked msg) => (coordinates1, Exec.panicked msg)
    | (coordinates1, Exec.returned (_, some err)) =>
      (coordinates1, Exec.returned ([], some err))
    | (coordinates1, Exec.returned (widthCoords, none)) =>
      match tricubeWeightFunction widthCoords with
      | Exec.panicked msg => (coordinates1, Exec.panicked msg)
      | Exec.returned weights =>
        match wLSRegression widthCoords weights with
        | (_, _, some err) => (coordinates1, Exec.returned ([], some err))
        | (slope, intercept, none) =>
          let estimatedValue := slope * q + intercept
          calcLoop bandwidth rest coordinates1
            (loessPoints ++ [{ X := q, Y := estimatedValue }])

/-- `CalcLOESS`.  The first component is the caller's `coordinates` slice after
the call, the second the outcome: the Go results `(loessPoints, err)` or a
panic. -/
def CalcLOESS (estimationPoints : List F64) (coordinates : List Coord) (bandwidth : F64) :
    CoordSlice × Exec (List Coord × GoError) :=
  if F64.le bandwidth (F64.fin 0) || F64.gt bandwidth (F64.fin 1) then
    (coordinates, Exec.returned ([], some calcLOESSError))
  else
    calcLoop bandwidth estimationPoints coordinates []

/-! ## The computation in the words of the specification (sections 4.1 to 4.4)

Observations are pairs of reals; the definitions below follow the text of the
specification and of the claim about it, not the code. -/

/-- An observation `(x, y)`. -/
abbrev Observation := ℚ × ℚ

/-- The observation as the `Coord` handed to the code. -/
def Observation.toCoord (o : Observation) : Coord := ⟨F64.fin o.1, F64.fin o.2⟩

/-- Section 4.1: `total_width = max(x) - min(x)` over all observations. -/
def specTotalWidth (observations : List Observation) : ℚ :=
  match observations.map Prod.fst with
  | [] => 0
  | x :: xs => xs.foldl max x - xs.foldl min x

/-- Section 4.1: the observations whose x lies within half the window width
`bandwidth * total_width` of the query, in the order of the observations. -/
def specNeighbors (observations : List Observation) (queryX bandwidth : ℚ) :
    List Observation :=
  observations.filter
    (fun o => |o.1 - queryX| ≤ bandwidth * specTotalWidth observations / 2)

/-- Section 4.2: `max_dist`, the largest distance to the query among the
neighbours. -/
def specMaxDist (neighbors : List Observation) (queryX : ℚ) : ℚ :=
  (neighbors.map (fun o => |o.1 - queryX|)).foldl max 0

/-- Section 4.2: the tricube weight `(1 - (|x - q| / max_dist)^3)^3`. -/
def specWeight (queryX maxDist : ℚ) (o : Observation) : ℚ :=
  (1 - (|o.1 - queryX| / maxDist) ^ 3) ^ 3

/-- Section 4.3: the closed form of the weighted least-squares line. -/
def specFit (neighbors : List Observation) (weight : Observation → ℚ) : ℚ × ℚ :=
  let sumW := (neighbors.map weight).sum
  let meanX := (neighbors.map (fun o => weight o * o.1)).sum / sumW
  let meanY := (neighbors.map (fun o => weight o * o.2)).sum / sumW
  let numerator := (neighbors.map (fun o => weight o * (o.1 - meanX) * (o.2 - meanY))).sum
  let denominator := (neighbors.map (fun o => weight o * (o.1 - meanX) ^ 2)).sum
  let slope := if denominator = 0 then 0 else numerator / denominator
  (slope, meanY - slope * meanX)

/-- Section 4.4: `y_estimate = slope * query_x + intercept` for the fit of the
neighbourhood of the query under its tricube weights. -/
def specEstimate (observations : List Observation) (queryX bandwidth : ℚ) : ℚ :=
  let neighbors := specNeighbors observations queryX bandwidth
  let fit := specFit neighbors (specWeight queryX (specMaxDist neighbors queryX))
  fit.1 * queryX + fit.2

/-- Section 4.1 as `float64` computes it: the two ends of the window,
`query_x - window_width/2` and `query_x + window_width/2` with
`window_width = bandwidth * total_width`, every operation rounded;
`total_width` is the rounded difference `max(x) - min(x)`. -/
def specWindow (observations : List Observation) (queryX bandwidth : ℚ) : F64 × F64 :=
  let halfWidth := F64.fin bandwidth * F64.round64 (specTotalWidth observations) / F64.fin 2
  (F64.fin queryX - halfWidth, F64.fin queryX + halfWidth)

/-- Section 4.1 as `float64` computes it: the observation lies in the window,
both ends included. -/
def specInWindow (observations : List Observation) (queryX bandwidth : ℚ)
    (o : Observation) : Bool :=
  F64.le (specWindow observations queryX bandwidth).1 (F64.fin o.1) &&
    F64.le (F64.fin o.1) (specWindow observations queryX bandwidth).2

/-! ## The fit in rational arithmetic -/

/-- The numbers `wLSRegression` works on, as exact rationals: for each index the
triple (weight, x, y) of the weight and the neighbour at that index. -/
def triples (coordinates : coordDistSlice) (weights : List F64) : List (ℚ × ℚ × ℚ) :=
  (coordinates.zip weights).map
    (fun p => (p.2.toRat, p.1.coord.X.toRat, p.1.coord.Y.toRat))

/-- The slope and intercept of `wLSRegression` in exact rational arithmetic, on
triples (weight, x, y): the two weighted means, the two sums of the loop, the
test `sumDenominator == 0` and the intercept. -/
def ratFit (T : List (ℚ × ℚ × ℚ)) : ℚ × ℚ :=
  let sumWeights := (T.map (fun t => t.1)).sum
  let weightedMeanX := (T.map (fun t => t.2.1 * t.1)).sum / sumWeights
  let weightedMeanY := (T.map (fun t => t.2.2 * t.1)).sum / sumWeights
  let sumNumerator := (T.map (fun t => t.1 * (t.2.1 - weightedMeanX) * (t.2.2 - weightedMeanY))).sum
  let sumDenominator := (T.map (fun t => t.1 * (t.2.1 - weightedMeanX) ^ 2)).sum
  let slope := if sumDenominator = 0 then 0 else sumNumerator / sumDenominator
  (slope, weightedMeanY - slope * weightedMeanX)

/-- The weighted sum of squared residuals of the line `y = a*x + b` on triples
(weight, x, y). -/
def weightedSSR (T : List (ℚ × ℚ × ℚ)) (a b : ℚ) : ℚ :=
  (T.map (fun t => t.1 * (t.2.2 - (a * t.2.1 + b)) ^ 2)).sum

/-! ## Runs in which no operation rounds

A `float64` operation is exact on its operands when its result is the real
result: nothing is rounded away.  The predicates below go through the
operations of `weightedMean` and of `wLSRegression` in the order of the code,
on the real values of the operands, and hold when every one of them is exact. -/

/-- The loop `sum = sum + t[i]`, started at `acc`, adds exactly at every step. -/
def sumExact : ℚ → List ℚ → Bool
  | _, [] => true
  | acc, t :: ts =>
    decide (F64.fin acc + F64.fin t = F64.fin (acc + t)) && sumExact (acc + t) ts

/-- The loop `sum = sum + values[i]*weights[i]`, started at `acc`, multiplies
and adds exactly at every step. -/
def dotExact : ℚ → List (ℚ × ℚ) → Bool
  | _, [] => true
  | acc, vw :: rest =>
    decide (F64.fin vw.1 * F64.fin vw.2 = F64.fin (vw.1 * vw.2)) &&
      decide (F64.fin acc + F64.fin (vw.1 * vw.2) = F64.fin (acc + vw.1 * vw.2)) &&
      dotExact (acc + vw.1 * vw.2) rest

/-- No operation of `weightedMean(values, weights)` rounds: the sum of the
weights, the sum of the products and their quotient are exact (so the weights
do not sum to zero). -/
def weightedMeanExact (values weights : List ℚ) : Bool :=
  sumExact 0 weights && dotExact 0 (values.zip weights) &&
    decide (F64.fin ((values.zip weights).map (fun vw => vw.1 * vw.2)).sum / F64.fin weights.sum
      = F64.fin (((values.zip weights).map (fun vw => vw.1 * vw.2)).sum / weights.sum))

/-- The loop of `wLSRegression` over the triples (weight, x, y), started at the
sums `sumN` and `sumD`, computes every difference, product, square and sum
exactly. -/
def fitLoopExact (meanX meanY : ℚ) : ℚ → ℚ → List (ℚ × ℚ × ℚ) → Bool
  | _, _, [] => true
  | sumN, sumD, t :: rest =>
    decide (F64.fin t.2.1 - F64.fin meanX = F64.fin (t.2.1 - meanX)) &&
      decide (F64.fin t.2.2 - F64.fin meanY = F64.fin (t.2.2 - meanY)) &&
      decide (F64.fin t.1 * F64.fin (t.2.1 - meanX) = F64.fin (t.1 * (t.2.1 - meanX))) &&
      decide (F64.fin (t.1 * (t.2.1 - meanX)) * F64.fin (t.2.2 - meanY)
        = F64.fin (t.1 * (t.2.1 - meanX) * (t.2.2 - meanY))) &&
      decide (F64.fin sumN + F64.fin (t.1 * (t.2.1 - meanX) * (t.2.2 - meanY))
        = F64.fin (sumN + t.1 * (t.2.1 - meanX) * (t.2.2 - meanY))) &&
      decide (F64.pow (F64.fin (t.2.1 - meanX)) 2 = F64.fin ((t.2.1 - meanX) ^ 2)) &&
      decide (F64.fin t.1 * F64.fin ((t.2.1 - meanX) ^ 2) = F64.fin (t.1 * (t.2.1 - meanX) ^ 2)) &&
      decide (F64.fin sumD + F64.fin (t.1 * (t.2.1 - meanX) ^ 2)
        = F64.fin (sumD + t.1 * (t.2.1 - meanX) ^ 2)) &&
      fitLoopExact meanX meanY (sumN + t.1 * (t.2.1 - meanX) * (t.2.2 - meanY))
        (sumD + t.1 * (t.2.1 - meanX) ^ 2) rest

/-- No operation of `wLSRegression` on the triples (weight, x, y) rounds: the
two weighted means, the loop, the quotient of the slope (when the denominator
is not 0) and the intercept are exact. -/
def wLSRegressionExact (T : List (ℚ × ℚ × ℚ)) : Bool :=
  let sumWeights := (T.map (fun t => t.1)).sum
  let weightedMeanX := (T.map (fun t => t.2.1 * t.1)).sum / sumWeights
  let weightedMeanY := (T.map (fun t => t.2.2 * t.1)).sum / sumWeights
  let sumNumerator := (T.map (fun t => t.1 * (t.2.1 - weightedMeanX) * (t.2.2 - weightedMeanY))).sum
  let sumDenominator := (T.map (fun t => t.1 * (t.2.1 - weightedMeanX) ^ 2)).sum
  let slope := if sumDenominator = 0 then 0 else sumNumerator / sumDenominator
  weightedMeanExact (T.map (fun t => t.2.1)) (T.map (fun t => t.1)) &&
    weightedMeanExact (T.map (fun t => t.2.2)) (T.map (fun t => t.1)) &&
    fitLoopExact weightedMeanX weightedMeanY 0 0 T &&
    (decide (sumDenominator = 0) ||
      decide (F64.fin sumNumerator / F64.fin sumDenominator
        = F64.fin (sumNumerator / sumDenominator))) &&
    decide (F64.fin slope * F64.fin weightedMeanX = F64.fin (slope * weightedMeanX)) &&
    decide (F64.fin weightedMeanY - F64.fin (slope * weightedMeanX)
      = F64.fin (weightedMeanY - slope * weightedMeanX))

/-! ## Arithmetic on finite values -/

theorem F64.fin_add (a b : ℚ) : F64.fin a + F64.fin b = F64.round64 (a + b) := rfl

theorem F64.fin_sub (a b : ℚ) : F64.fin a - F64.fin b = F64.round64 (a - b) := by
  show F64.add (F64.fin a) (F64.neg (F64.fin b)) = _
  simp [F64.neg, F64.add, sub_eq_add_neg]

theorem F64.fin_mul (a b : ℚ) : F64.fin a * F64.fin b = F64.round64 (a * b) := rfl

theorem F64.fin_div (a b : ℚ) (hb : b ≠ 0) :
    F64.fin a / F64.fin b = F64.round64 (a / b) := by
  show F64.div (F64.fin a) (F64.fin b) = _
  simp [F64.div, hb]

@[simp] theorem F64.abs_fin (a : ℚ) : F64.abs (F64.fin a) = F64.fin |a| := rfl

@[simp] theorem F64.lt_fin (a b : ℚ) : F64.lt (F64.fin a) (F64.fin b) = decide (a < b) := rfl

@[simp] theorem F64.le_fin (a b : ℚ) : F64.le (F64.fin a) (F64.fin b) = decide (a ≤ b) := rfl

@[simp] theorem F64.eq_fin (a b : ℚ) : F64.eq (F64.fin a) (F64.fin b) = decide (a = b) := rfl

theorem F64.round64_zero : F64.round64 0 = F64.fin 0 := by
  simp [F64.round64]

theorem F64.round64_one : F64.round64 1 = F64.fin 1 := by
  decide!

/-- Rounding never gives `NaN`. -/
theorem F64.round64_ne_nan (q : ℚ) : F64.round64 q ≠ F64.nan := by
  unfold F64.round64
  split_ifs <;> simp

/-! ## The loop of `CalcLOESS` -/

/-- A loop that returns an error returns no point. -/
theorem calcLoop_error (bandwidth : F64) (qs : List F64) :
    ∀ (coordinates : CoordSlice) (acc : List Coord) (after : CoordSlice)
      (pts : List Coord) (e : String),
      calcLoop bandwidth qs coordinates acc = (after, Exec.returned (pts, some e)) →
      pts = [] := by
  induction qs with
  | nil => intro coordinates acc after pts e h; simp [calcLoop] at h
  | cons q rest ih =>
    intro coordinates acc after pts e h
    unfold calcLoop at h
    split at h
    · simp at h
    · simp at h; exact h.2.1
    · split at h
      · simp at h
      · split at h
        · simp at h; exact h.2.1
        · exact ih _ _ _ _ _ h

/-- A loop that returns without error has appended one point per estimation
point, in order, each at the x of its estimation point. -/
theorem calcLoop_points (bandwidth : F64) (qs : List F64) :
    ∀ (coordinates : CoordSlice) (acc : List Coord) (after : CoordSlice)
      (pts : List Coord),
      calcLoop bandwidth qs coordinates acc = (after, Exec.returned (pts, none)) →
      ∃ new : List Coord, pts = acc ++ new ∧ new.map Coord.X = qs := by
  induction qs with
  | nil =>
    intro coordinates acc after pts h
    simp [calcLoop] at h
    exact ⟨[], by simp [h.2]⟩
  | cons q rest ih =>
    intro coordinates acc after pts h
    unfold calcLoop at h
    split at h
    · simp at h
    · simp at h
    · split at h
      · simp at h
      · split at h
        · simp at h
        · obtain ⟨new, h1, h2⟩ := ih _ _ _ _ h
          exact ⟨_, h1.trans (List.append_assoc _ _ _), by simp [h2]⟩

/-! ## `sort.Sort` rearranges and orders -/

theorem insertLeft_perm {α : Type} (less : α → α → Bool) (x : α) (l : List α) :
    (insertLeft less x l).Perm (x :: l) := by
  induction l with
  | nil => simp [insertLeft]
  | cons y ys ih =>
    unfold insertLeft
    split
    · exact (List.Perm.cons y ih).trans (List.Perm.swap x y ys)
    · exact List.Perm.refl _

theorem insertionSortRev_perm {α : Type} (less : α → α → Bool) (data : List α) :
    (insertionSortRev less data).Perm data := by
  have key : ∀ (l acc : List α),
      (l.foldl (fun revPrefix x => insertLeft less x revPrefix) acc).Perm (l ++ acc) := by
    intro l
    induction l with
    | nil => intro acc; simp
    | cons x xs ih =>
      intro acc
      simp only [List.foldl_cons]
      refine (ih _).trans ?_
      refine (List.Perm.append_left xs (insertLeft_perm less x acc)).trans ?_
      simp
  simpa [insertionSortRev] using key data []

/-- The result of `sort.Sort` holds the elements of the input, each as often. -/
theorem sortSort_perm {α : Type} (less : α → α → Bool) (data : List α) :
    (sortSort less data).Perm data :=
  (List.reverse_perm _).trans (insertionSortRev_perm less data)

/-- Inserting into a part ordered from the largest down keeps it so, when
`less` is asymmetric and its negation is transitive on the elements at hand. -/
theorem insertLeft_pairwise {α : Type} (less : α → α → Bool) (P : α → Prop)
    (hasym : ∀ a b, less a b = true → less b a = false)
    (htrans : ∀ a b c, P a → P b → P c → less a b = false → less b c = false → less a c = false)
    (x : α) (hx : P x) (l : List α) (hl : ∀ y ∈ l, P y)
    (hs : l.Pairwise (fun a b => less a b = false)) :
    (insertLeft less x l).Pairwise (fun a b => less a b = false) := by
  induction l with
  | nil => simp [insertLeft]
  | cons y ys ih =>
    have hy : P y := hl y (List.mem_cons_self _ _)
    have hys : ∀ z ∈ ys, P z := fun z hz => hl z (List.mem_cons_of_mem _ hz)
    rw [List.pairwise_cons] at hs
    unfold insertLeft
    split
    · rename_i hlt
      rw [List.pairwise_cons]
      refine ⟨?_, ih hys hs.2⟩
      intro z hz
      rcases List.mem_cons.mp ((insertLeft_perm less x ys).mem_iff.mp hz) with hz | hz
      · subst hz; exact hasym _ _ hlt
      · exact hs.1 z hz
    · rename_i hlt
      have hxy : less x y = false := by simpa using hlt
      rw [List.pairwise_cons]
      refine ⟨?_, List.pairwise_cons.mpr hs⟩
      intro z hz
      rcases List.mem_cons.mp hz with hz | hz
      · subst hz; exact hxy
      · exact htrans x y z hx hy (hys z hz) hxy (hs.1 z hz)

theorem insertionSortRev_pairwise {α : Type} (less : α → α → Bool) (P : α → Prop)
    (hasym : ∀ a b, less a b = true → less b a = false)
    (htrans : ∀ a b c, P a → P b → P c → less a b = false → less b c = false → less a c = false)
    (data : List α) (hd : ∀ y ∈ data, P y) :
    (insertionSortRev less data).Pairwise (fun a b => less a b = false) := by
  have key : ∀ (l acc : List α), (∀ y ∈ l, P y) → (∀ y ∈ acc, P y) →
      acc.Pairwise (fun a b => less a b = false) →
      (l.foldl (fun revPrefix x => insertLeft less x revPrefix) acc).Pairwise
        (fun a b => less a b = false) := by
    intro l
    induction l with
    | nil => intro acc _ _ h; simpa using h
    | cons x xs ih =>
      intro acc hl hacc h
      simp only [List.foldl_cons]
      have hx : P x := hl x (List.mem_cons_self _ _)
      refine ih _ (fun y hy => hl y (List.mem_cons_of_mem _ hy)) ?_
        (insertLeft_pairwise less P hasym htrans x hx acc hacc h)
      intro y hy
      rcases List.mem_cons.mp ((insertLeft_perm less x acc).mem_iff.mp hy) with h1 | h1
      · subst h1; exact hx
      · exact hacc y h1
  exact key data [] hd (by simp) List.Pairwise.nil

/-- The result of `sort.Sort` is ordered: no element is `Less` than one before
it.  This needs `Less` to be asymmetric and its negation transitive on the
elements of the slice (for a `float64` key: no `NaN` among the keys). -/
theorem sortSort_pairwise {α : Type} (less : α → α → Bool) (P : α → Prop)
    (hasym : ∀ a b, less a b = true → less b a = false)
    (htrans : ∀ a b c, P a → P b → P c → less a b = false → less b c = false → less a c = false)
    (data : List α) (hd : ∀ y ∈ data, P y) :
    (sortSort less data).Pairwise (fun a b => less b a = false) := by
  unfold sortSort
  rw [List.pairwise_reverse]
  exact insertionSortRev_pairwise less P hasym htrans data hd

/-! ## The caller's slice -/

/-- `findNearest` leaves in the caller's slice the observations it found there. -/
theorem findNearest_perm (coordinates : CoordSlice) (targetX bandwidth : F64) :
    (findNearest coordinates targetX bandwidth).1.Perm coordinates := by
  unfold findNearest
  split
  · exact List.Perm.refl _
  · simp only
    split <;> exact sortSort_perm _ _

/-- The loop of `CalcLOESS` leaves in the caller's slice the observations it
found there. -/
theorem calcLoop_perm (bandwidth : F64) (qs : List F64) :
    ∀ (coordinates : CoordSlice) (acc : List Coord),
      (calcLoop bandwidth qs coordinates acc).1.Perm coordinates := by
  induction qs with
  | nil => intro coordinates acc; simp [calcLoop]
  | cons q rest ih =>
    intro coordinates acc
    have hp := findNearest_perm coordinates q bandwidth
    unfold calcLoop
    split
    · rename_i h; rw [h] at hp; exact hp
    · rename_i h; rw [h] at hp; exact hp
    · rename_i h; rw [h] at hp
      split
      · exact hp
      · split
        · exact hp
        · exact (ih _ _).trans hp

/-- `wLSRegression` returns no error when the lengths agree. -/
theorem wLSRegression_no_error (coordinates : coordDistSlice) (weights : List F64)
    (hlen : weights.length = coordinates.length) :
    (wLSRegression coordinates weights).2.2 = none := by
  simp [wLSRegression, weightedMean, hlen]

/-! ## Finite values -/

theorem F64.eq_fin_toRat {x : F64} (h : x.isFinite = true) : x = F64.fin x.toRat := by
  cases x <;> simp [F64.isFinite, F64.toRat] at h ⊢

/-- Every element of a list ordered by a reflexive relation is related to the
last one. -/
theorem pairwise_getLast {α : Type} (r : α → α → Prop) (hr : ∀ a, r a a) (l : List α)
    (last : α) (hlast : l.getLast? = some last) (hp : l.Pairwise r) :
    ∀ a ∈ l, r a last := by
  obtain ⟨init, rfl⟩ : ∃ init, l = init ++ [last] := by
    rcases List.eq_nil_or_concat l with h | ⟨init, b, h⟩
    · subst h; simp at hlast
    · subst h
      simp at hlast
      exact ⟨init, by rw [hlast]; simp⟩
  intro a ha
  rw [List.pairwise_append] at hp
  rcases List.mem_append.mp ha with h | h
  · exact hp.2.2 a h last (by simp)
  · simp at h; subst h; exact hr _

/-! ## The window of `findNearest` -/

/-- The selection loop keeps the elements in the window, in order. -/
theorem selectWindow_eq_filter (sortedCoords : List Coord) (targetX minX maxX : F64) :
    selectWindow sortedCoords targetX minX maxX
      = (sortedCoords.filter (fun c => F64.ge c.X minX && F64.le c.X maxX)).map
          (fun c => { coord := c, dist := findDist targetX c.X }) := by
  have key : ∀ (l : List Coord) (acc : coordDistSlice),
      l.foldl (fun distances c =>
          if F64.ge c.X minX && F64.le c.X maxX then
            distances ++ [{ coord := c, dist := findDist targetX c.X }]
          else distances) acc
        = acc ++ (l.filter (fun c => F64.ge c.X minX && F64.le c.X maxX)).map
            (fun c => { coord := c, dist := findDist targetX c.X }) := by
    intro l
    induction l with
    | nil => intro acc; simp
    | cons c cs ih =>
      intro acc
      simp only [List.foldl_cons, List.filter_cons]
      split
      · rw [ih]; simp
      · rw [ih]
  simpa [selectWindow] using key sortedCoords []

/-! ## Largest and smallest element -/

theorem foldl_max_ge (l : List ℚ) (x : ℚ) : x ≤ l.foldl max x ∧ ∀ y ∈ l, y ≤ l.foldl max x := by
  induction l generalizing x with
  | nil => simp
  | cons z zs ih =>
    simp only [List.foldl_cons]
    obtain ⟨h1, h2⟩ := ih (max x z)
    refine ⟨le_trans (le_max_left _ _) h1, ?_⟩
    intro y hy
    rcases List.mem_cons.mp hy with h | h
    · subst h; exact le_trans (le_max_right _ _) h1
    · exact h2 y h

theorem foldl_max_le (l : List ℚ) (x B : ℚ) (hx : x ≤ B) (hl : ∀ y ∈ l, y ≤ B) :
    l.foldl max x ≤ B := by
  induction l generalizing x with
  | nil => simpa using hx
  | cons z zs ih =>
    simp only [List.foldl_cons]
    exact ih _ (max_le hx (hl z (List.mem_cons_self _ _)))
      (fun y hy => hl y (List.mem_cons_of_mem _ hy))

theorem foldl_min_le (l : List ℚ) (x : ℚ) : l.foldl min x ≤ x ∧ ∀ y ∈ l, l.foldl min x ≤ y := by
  induction l generalizing x with
  | nil => simp
  | cons z zs ih =>
    simp only [List.foldl_cons]
    obtain ⟨h1, h2⟩ := ih (min x z)
    refine ⟨le_trans h1 (min_le_left _ _), ?_⟩
    intro y hy
    rcases List.mem_cons.mp hy with h | h
    · subst h; exact le_trans h1 (min_le_right _ _)
    · exact h2 y h

theorem foldl_min_ge (l : List ℚ) (x B : ℚ) (hx : B ≤ x) (hl : ∀ y ∈ l, B ≤ y) :
    B ≤ l.foldl min x := by
  induction l generalizing x with
  | nil => simpa using hx
  | cons z zs ih =>
    simp only [List.foldl_cons]
    exact ih _ (le_min hx (hl z (List.mem_cons_self _ _)))
      (fun y hy => hl y (List.mem_cons_of_mem _ hy))

/-! ## Lengths, errors and the two special distances of the kernel -/

/-- `tricubeWeightFunction` returns one weight per neighbour. -/
theorem tricubeWeightFunction_length (sortedCoordDists : coordDistSlice) (weights : List F64)
    (h : tricubeWeightFunction sortedCoordDists = Exec.returned weights) :
    weights.length = sortedCoordDists.length := by
  unfold tricubeWeightFunction at h
  split at h
  · simp at h
  · simp only [Exec.returned.injEq] at h
    rw [← h, List.length_map]

/-- With a bandwidth that passes the check, `findNearest` returns no error. -/
theorem findNearest_no_error (sortedCoords : CoordSlice) (targetX bandwidth : F64)
    (hb : (F64.le bandwidth (F64.fin 0) || F64.gt bandwidth (F64.fin 1)) = false)
    (after : CoordSlice) (distances : coordDistSlice) (e : String) :
    findNearest sortedCoords targetX bandwidth
      ≠ (after, Exec.returned (distances, some e)) := by
  unfold findNearest
  rw [hb]
  simp only [Bool.false_eq_true, if_false]
  split <;> simp

/-- With a bandwidth that passes the check, the loop of `CalcLOESS` returns no
error: neither per-query error branch is taken. -/
theorem calcLoop_no_error (bandwidth : F64)
    (hb : (F64.le bandwidth (F64.fin 0) || F64.gt bandwidth (F64.fin 1)) = false)
    (qs : List F64) :
    ∀ (coordinates : CoordSlice) (acc : List Coord) (after : CoordSlice)
      (pts : List Coord) (e : String),
      calcLoop bandwidth qs coordinates acc ≠ (after, Exec.returned (pts, some e)) := by
  induction qs with
  | nil => intro coordinates acc after pts e h; simp [calcLoop] at h
  | cons q rest ih =>
    intro coordinates acc after pts e h
    unfold calcLoop at h
    split at h
    · simp at h
    · rename_i hfn
      exact findNearest_no_error _ _ _ hb _ _ _ hfn
    · split at h
      · simp at h
      · rename_i htw
        split at h
        · rename_i hwls
          have h1 := wLSRegression_no_error _ _ (tricubeWeightFunction_length _ _ htw)
          rw [hwls] at h1
          simp at h1
        · exact ih _ _ _ _ _ h

/-- `tricubeWeightFunction` on a neighbourhood with a last element: every
distance is divided by the distance of the last element. -/
theorem tricubeWeightFunction_eq (sortedCoordDists : coordDistSlice) (last : coordDist)
    (hlast : sortedCoordDists.getLast? = some last) :
    tricubeWeightFunction sortedCoordDists
      = Exec.returned (sortedCoordDists.map (fun cd =>
          F64.pow (F64.fin 1 - F64.pow (F64.abs (cd.dist / last.dist)) 3) 3)) := by
  unfold tricubeWeightFunction
  rw [hlast]

/-! ## Order on values that are not `NaN` -/

theorem F64.lt_asymm (a b : F64) (h : F64.lt a b = true) : F64.lt b a = false := by
  cases a <;> cases b <;> simp [F64.lt] at h ⊢
  exact le_of_lt h

theorem F64.lt_false_trans (a b c : F64) (ha : a ≠ F64.nan) (hb : b ≠ F64.nan)
    (hc : c ≠ F64.nan) (h1 : F64.lt a b = false) (h2 : F64.lt b c = false) :
    F64.lt a c = false := by
  cases a <;> cases b <;> cases c <;> simp [F64.lt] at *
  exact le_trans h2 h1

theorem F64.le_of_lt_false (a b : F64) (ha : a ≠ F64.nan) (hb : b ≠ F64.nan)
    (h : F64.lt b a = false) : F64.le a b = true := by
  cases a <;> cases b <;> simp [F64.lt, F64.le] at *
  exact h

theorem F64.lt_false_iff (a b : F64) (ha : a.isFinite = true) (hb : b.isFinite = true) :
    F64.lt b a = false ↔ a.toRat ≤ b.toRat := by
  cases a <;> cases b <;> simp [F64.lt, F64.isFinite, F64.toRat] at *

/-- The distance between two finite numbers is not `NaN` (it is the absolute
value of a rounded difference: a finite number or `+Inf`). -/
theorem findDist_ne_nan (a b : ℚ) : findDist (F64.fin a) (F64.fin b) ≠ F64.nan := by
  unfold findDist
  rw [F64.fin_sub]
  have h := F64.round64_ne_nan (a - b)
  cases hr : F64.round64 (a - b) <;> simp_all [F64.abs]

/-- `sort.Sort` by `X` orders a slice of finite x-values ascending. -/
theorem sortSort_coords_sorted (coords : List Coord)
    (hfin : ∀ c ∈ coords, c.X.isFinite = true) :
    (sortSort CoordSlice.Less coords).Pairwise (fun a b => a.X.toRat ≤ b.X.toRat) := by
  have hnan : ∀ c : Coord, c.X.isFinite = true → c.X ≠ F64.nan := by
    intro c h h2; rw [h2] at h; simp [F64.isFinite] at h
  have h := sortSort_pairwise CoordSlice.Less (fun c => c.X.isFinite = true)
    (fun a b hab => F64.lt_asymm _ _ hab)
    (fun a b c ha hb hc h1 h2 =>
      F64.lt_false_trans _ _ _ (hnan a ha) (hnan b hb) (hnan c hc) h1 h2) coords hfin
  have hmem : ∀ c ∈ sortSort CoordSlice.Less coords, c.X.isFinite = true :=
    fun c hc => hfin c ((sortSort_perm _ _).mem_iff.mp hc)
  refine List.Pairwise.imp_of_mem ?_ h
  intro a b ha hb hab
  exact (F64.lt_false_iff _ _ (hmem a ha) (hmem b hb)).mp hab

/-- `sort.Sort` by `dist` orders a slice without `NaN` distances ascending. -/
theorem sortSort_dists_sorted (cds : coordDistSlice)
    (hnan : ∀ c ∈ cds, c.dist ≠ F64.nan) :
    (sortSort coordDistSlice.Less cds).Pairwise (fun a b => F64.le a.dist b.dist = true) := by
  have h := sortSort_pairwise coordDistSlice.Less (fun c => c.dist ≠ F64.nan)
    (fun a b hab => F64.lt_asymm _ _ hab)
    (fun a b c ha hb hc h1 h2 => F64.lt_false_trans _ _ _ ha hb hc h1 h2) cds hnan
  have hmem : ∀ c ∈ sortSort coordDistSlice.Less cds, c.dist ≠ F64.nan :=
    fun c hc => hnan c ((sortSort_perm _ _).mem_iff.mp hc)
  refine List.Pairwise.imp_of_mem ?_ h
  intro a b ha hb hab
  exact F64.le_of_lt_false _ _ (hmem a ha) (hmem b hb) hab

theorem F64.le_refl_of_ne_nan (a : F64) (h : a ≠ F64.nan) : F64.le a a = true := by
  cases a <;> simp [F64.le] at *

/-! ## What `findNearest` returns -/

theorem toCoord_X (o : Observation) : o.toCoord.X = F64.fin o.1 := rfl

theorem toCoord_Y (o : Observation) : o.toCoord.Y = F64.fin o.2 := rfl

/-- With a bandwidth that passes the check, on a slice that is not empty,
`findNearest` sorts the slice, selects the elements in the window computed from
the first and the last element of the sorted slice, and sorts them by distance. -/
theorem findNearest_eq (sortedCoords : CoordSlice) (targetX bandwidth : F64)
    (hb : (F64.le bandwidth (F64.fin 0) || F64.gt bandwidth (F64.fin 1)) = false)
    (first last : Coord)
    (hfirst : (sortSort CoordSlice.Less sortedCoords).head? = some first)
    (hlast : (sortSort CoordSlice.Less sortedCoords).getLast? = some last) :
    findNearest sortedCoords targetX bandwidth
      = (sortSort CoordSlice.Less sortedCoords,
          Exec.returned
            (sortSort coordDistSlice.Less
              (selectWindow (sortSort CoordSlice.Less sortedCoords) targetX
                (targetX - bandwidth * (last.X - first.X) / F64.fin 2)
                (targetX + bandwidth * (last.X - first.X) / F64.fin 2)), none)) := by
  unfold findNearest
  rw [hb]
  simp only [Bool.false_eq_true, if_false, hfirst, hlast]

/-- On an empty slice, with a bandwidth that passes the check, `findNearest`
panics. -/
theorem findNearest_nil (targetX bandwidth : F64)
    (hb : (F64.le bandwidth (F64.fin 0) || F64.gt bandwidth (F64.fin 1)) = false) :
    findNearest [] targetX bandwidth = ([], Exec.panicked indexPanic) := by
  unfold findNearest
  rw [hb]
  rfl

/-- A slice that is not empty has a first and a last element after the sort. -/
theorem sortSort_head_last {α : Type} (less : α → α → Bool) (l : List α) (hne : l ≠ []) :
    ∃ first last, (sortSort less l).head? = some first ∧
      (sortSort less l).getLast? = some last := by
  have hs : sortSort less l ≠ [] := by
    intro h
    have h1 := (sortSort_perm less l).length_eq
    rw [h] at h1
    exact hne (List.length_eq_zero.mp h1.symm)
  cases hl : sortSort less l with
  | nil => exact absurd hl hs
  | cons x xs =>
    exact ⟨x, (x :: xs).getLast (by simp), rfl, List.getLast?_eq_getLast _ _⟩

/-- The neighbours `findNearest` returns have distances that are not `NaN`, when
the observations and the target are finite. -/
theorem selectWindow_dist_ne_nan (coords : List Coord) (q : ℚ) (minX maxX : F64)
    (hfin : ∀ c ∈ coords, c.X.isFinite = true) :
    ∀ cd ∈ selectWindow coords (F64.fin q) minX maxX, cd.dist ≠ F64.nan := by
  intro cd hcd
  rw [selectWindow_eq_filter] at hcd
  obtain ⟨c, hc, rfl⟩ := List.mem_map.mp hcd
  have hc1 : c ∈ coords := (List.mem_filter.mp hc).1
  show findDist (F64.fin q) c.X ≠ F64.nan
  rw [F64.eq_fin_toRat (hfin c hc1)]
  exact findDist_ne_nan _ _

/-! ## Runs in which no operation rounds -/

/-- The loop `sum = sum + t[i]` when every addition is exact. -/
theorem foldl_add_exact (l : List ℚ) (acc : ℚ) (h : sumExact acc l = true) :
    (l.map F64.fin).foldl (fun s w => s + w) (F64.fin acc) = F64.fin (acc + l.sum) := by
  induction l generalizing acc with
  | nil => simp
  | cons t ts ih =>
    simp only [sumExact, Bool.and_eq_true, decide_eq_true_eq] at h
    simp only [List.map_cons, List.foldl_cons, List.sum_cons]
    rw [h.1, ih _ h.2, add_assoc]

/-- The loop `sum = sum + values[i]*weights[i]` when every product and every
addition is exact. -/
theorem foldl_dot_exact (l : List (ℚ × ℚ)) (acc : ℚ) (h : dotExact acc l = true) :
    ((l.map (fun vw => F64.fin vw.1)).zip (l.map (fun vw => F64.fin vw.2))).foldl
        (fun s vw => s + vw.1 * vw.2) (F64.fin acc)
      = F64.fin (acc + (l.map (fun vw => vw.1 * vw.2)).sum) := by
  induction l generalizing acc with
  | nil => simp
  | cons t ts ih =>
    simp only [dotExact, Bool.and_eq_true, decide_eq_true_eq] at h
    simp only [List.map_cons, List.zip_cons_cons, List.foldl_cons, List.sum_cons]
    rw [h.1.1, h.1.2, ih _ h.2, add_assoc]

/-- `weightedMean` when none of its operations rounds: the exact weighted mean. -/
theorem weightedMean_exact (values weights : List ℚ) (hlen : weights.length = values.length)
    (h : weightedMeanExact values weights = true) :
    weightedMean (values.map F64.fin) (weights.map F64.fin)
      = (F64.fin (((values.zip weights).map (fun vw => vw.1 * vw.2)).sum / weights.sum),
          none) := by
  simp only [weightedMeanExact, Bool.and_eq_true, decide_eq_true_eq] at h
  obtain ⟨⟨h1, h2⟩, h3⟩ := h
  unfold weightedMean
  rw [if_neg (by simp [hlen])]
  simp only
  rw [foldl_add_exact weights 0 h1]
  have hz : (values.map F64.fin).zip (weights.map F64.fin)
      = ((values.zip weights).map (fun vw => F64.fin vw.1)).zip
          ((values.zip weights).map (fun vw => F64.fin vw.2)) := by
    have e1 : (values.zip weights).map (fun vw => F64.fin vw.1) = values.map F64.fin := by
      rw [show (fun vw : ℚ × ℚ => F64.fin vw.1) = F64.fin ∘ Prod.fst from rfl,
        ← List.map_map, List.map_fst_zip]
      omega
    have e2 : (values.zip weights).map (fun vw => F64.fin vw.2) = weights.map F64.fin := by
      rw [show (fun vw : ℚ × ℚ => F64.fin vw.2) = F64.fin ∘ Prod.snd from rfl,
        ← List.map_map, List.map_snd_zip]
      omega
    rw [e1, e2]
  rw [hz, foldl_dot_exact _ 0 h2]
  simp only [zero_add]
  rw [h3]

/-- The loop of `wLSRegression` when none of its operations rounds. -/
theorem foldl_fit_exact (mx my : ℚ) (T : List (ℚ × ℚ × ℚ)) (sn sd : ℚ)
    (h : fitLoopExact mx my sn sd T = true) :
    ((T.map (fun t => F64.fin t.1)).zip
        ((T.map (fun t => F64.fin t.2.1)).zip (T.map (fun t => F64.fin t.2.2)))).foldl
        (fun s wxy =>
          (s.1 + wxy.1 * (wxy.2.1 - F64.fin mx) * (wxy.2.2 - F64.fin my),
           s.2 + wxy.1 * F64.pow (wxy.2.1 - F64.fin mx) 2))
        (F64.fin sn, F64.fin sd)
      = (F64.fin (sn + (T.map (fun t => t.1 * (t.2.1 - mx) * (t.2.2 - my))).sum),
         F64.fin (sd + (T.map (fun t => t.1 * (t.2.1 - mx) ^ 2)).sum)) := by
  induction T generalizing sn sd with
  | nil => simp
  | cons t ts ih =>
    simp only [fitLoopExact, Bool.and_eq_true, decide_eq_true_eq] at h
    obtain ⟨⟨⟨⟨⟨⟨⟨⟨h1, h2⟩, h3⟩, h4⟩, h5⟩, h6⟩, h7⟩, h8⟩, h9⟩ := h
    simp only [List.map_cons, List.zip_cons_cons, List.foldl_cons, List.sum_cons]
    rw [h1, h2, h3, h4, h5, h6, h7, h8, ih _ _ h9, add_assoc, add_assoc]

/-- The weights of the triples are the weights. -/
theorem triples_weights (coordinates : coordDistSlice) (weights : List F64)
    (hlen : weights.length = coordinates.length) :
    (triples coordinates weights).map (fun t => t.1) = weights.map F64.toRat := by
  unfold triples
  rw [List.map_map]
  have h : weights = (coordinates.zip weights).map Prod.snd := by
    rw [List.map_snd_zip]; omega
  conv_rhs => rw [h, List.map_map]
  rfl

/-- `wLSRegression` on finite coordinates and finite weights, when none of its
operations rounds, computes the rational fit. -/
theorem wLSRegression_exact (coordinates : coordDistSlice) (weights : List F64)
    (hlen : weights.length = coordinates.length)
    (hc : ∀ cd ∈ coordinates, cd.coord.X.isFinite = true ∧ cd.coord.Y.isFinite = true)
    (hw : ∀ w ∈ weights, w.isFinite = true)
    (hex : wLSRegressionExact (triples coordinates weights) = true) :
    wLSRegression coordinates weights
      = (F64.fin (ratFit (triples coordinates weights)).1,
         F64.fin (ratFit (triples coordinates weights)).2, none) := by
  set T := triples coordinates weights with hT
  set P := coordinates.zip weights with hP
  have hn : coordinates = P.map Prod.fst := by
    rw [hP, List.map_fst_zip]; omega
  have hws0 : weights = P.map Prod.snd := by
    rw [hP, List.map_snd_zip]; omega
  have hTP : T = P.map (fun p => (p.2.toRat, p.1.coord.X.toRat, p.1.coord.Y.toRat)) := rfl
  have hws : weights = (T.map (fun t => t.1)).map F64.fin := by
    conv_lhs => rw [hws0]
    rw [hTP, List.map_map, List.map_map]
    apply List.map_congr_left
    intro p hp
    exact F64.eq_fin_toRat (hw _ (List.of_mem_zip hp).2)
  have hxs : coordinates.map (fun cd => cd.coord.X) = (T.map (fun t => t.2.1)).map F64.fin := by
    conv_lhs => rw [hn]
    rw [hTP, List.map_map, List.map_map, List.map_map]
    apply List.map_congr_left
    intro p hp
    exact F64.eq_fin_toRat (hc _ (List.of_mem_zip hp).1).1
  have hys : coordinates.map (fun cd => cd.coord.Y) = (T.map (fun t => t.2.2)).map F64.fin := by
    conv_lhs => rw [hn]
    rw [hTP, List.map_map, List.map_map, List.map_map]
    apply List.map_congr_left
    intro p hp
    exact F64.eq_fin_toRat (hc _ (List.of_mem_zip hp).1).2
  simp only [wLSRegressionExact, Bool.and_eq_true, Bool.or_eq_true, decide_eq_true_eq] at hex
  obtain ⟨⟨⟨⟨⟨e1, e2⟩, e3⟩, e4⟩, e5⟩, e6⟩ := hex
  have hmx := weightedMean_exact _ _ (by simp) e1
  have hmy := weightedMean_exact _ _ (by simp) e2
  have hsx : ((T.map (fun t => t.2.1)).zip (T.map (fun t => t.1))).map (fun vw => vw.1 * vw.2)
      = T.map (fun t => t.2.1 * t.1) := by
    rw [List.zip_map', List.map_map]; rfl
  have hsy : ((T.map (fun t => t.2.2)).zip (T.map (fun t => t.1))).map (fun vw => vw.1 * vw.2)
      = T.map (fun t => t.2.2 * t.1) := by
    rw [List.zip_map', List.map_map]; rfl
  rw [hsx] at hmx
  rw [hsy] at hmy
  have hfit := foldl_fit_exact _ _ T 0 0 e3
  unfold wLSRegression
  rw [if_neg (by simp [hlen])]
  simp only
  rw [hxs, hys]
  conv_lhs => rw [hws]
  rw [hmx]
  simp only
  rw [hmy]
  simp only
  simp only [List.map_map, Function.comp_def] at hfit ⊢
  rw [hfit]
  simp only [ratFit, zero_add, F64.eq_fin] at e4 e5 e6 ⊢
  by_cases hden : (T.map (fun t => t.1 * (t.2.1
      - (T.map (fun t => t.2.1 * t.1)).sum / (T.map (fun t => t.1)).sum) ^ 2)).sum = 0
  · rw [if_pos hden] at e5 e6
    simp only [hden, decide_True, if_true] at e5 e6 ⊢
    rw [e5, e6]
  · rw [if_neg hden] at e5 e6
    rcases e4 with e4 | e4
    · exact absurd e4 hden
    · simp only [hden, decide_False, if_false, Bool.false_eq_true] at e5 e6 ⊢
      rw [e4, e5, e6]

/-! ## The rational fit -/

/-- A sum of non-negative numbers that is zero has only zero terms. -/
theorem sum_eq_zero_of_nonneg (l : List ℚ) (h : ∀ x ∈ l, 0 ≤ x) (hs : l.sum = 0) :
    ∀ x ∈ l, x = 0 := by
  induction l with
  | nil => intro x hx; simp at hx
  | cons y ys ih =>
    have hy : 0 ≤ y := h y (List.mem_cons_self _ _)
    have hys : ∀ x ∈ ys, 0 ≤ x := fun x hx => h x (List.mem_cons_of_mem _ hx)
    have hsum : 0 ≤ ys.sum := List.sum_nonneg hys
    rw [List.sum_cons] at hs
    have hy0 : y = 0 := by linarith
    have hys0 : ys.sum = 0 := by linarith
    intro x hx
    rcases List.mem_cons.mp hx with h1 | h1
    · rw [h1]; exact hy0
    · exact ih hys hys0 x h1

/-- The weighted sum of the squares of `γ*y + α*x + β`, in the six moments. -/
theorem sum_weighted_square (T : List (ℚ × ℚ × ℚ)) (γ α β : ℚ) :
    (T.map (fun t => t.1 * (γ * t.2.2 + α * t.2.1 + β) ^ 2)).sum
      = γ ^ 2 * (T.map (fun t => t.1 * t.2.2 ^ 2)).sum
        + α ^ 2 * (T.map (fun t => t.1 * t.2.1 ^ 2)).sum
        + β ^ 2 * (T.map (fun t => t.1)).sum
        + 2 * γ * α * (T.map (fun t => t.1 * t.2.1 * t.2.2)).sum
        + 2 * γ * β * (T.map (fun t => t.2.2 * t.1)).sum
        + 2 * α * β * (T.map (fun t => t.2.1 * t.1)).sum := by
  induction T with
  | nil => simp
  | cons t ts ih =>
    simp only [List.map_cons, List.sum_cons, ih]
    ring

/-- The weighted sum of the products `(x - mx)*(y - my)`, in the moments. -/
theorem sum_weighted_product (T : List (ℚ × ℚ × ℚ)) (mx my : ℚ) :
    (T.map (fun t => t.1 * (t.2.1 - mx) * (t.2.2 - my))).sum
      = (T.map (fun t => t.1 * t.2.1 * t.2.2)).sum
        - my * (T.map (fun t => t.2.1 * t.1)).sum
        - mx * (T.map (fun t => t.2.2 * t.1)).sum
        + mx * my * (T.map (fun t => t.1)).sum := by
  induction T with
  | nil => simp
  | cons t ts ih =>
    simp only [List.map_cons, List.sum_cons, ih]
    ring

/-- With non-negative weights, a zero denominator of the fit makes its
numerator zero too. -/
theorem numerator_zero_of_denominator_zero (T : List (ℚ × ℚ × ℚ)) (mx my : ℚ)
    (hw : ∀ t ∈ T, 0 ≤ t.1)
    (hden : (T.map (fun t => t.1 * (t.2.1 - mx) ^ 2)).sum = 0) :
    (T.map (fun t => t.1 * (t.2.1 - mx) * (t.2.2 - my))).sum = 0 := by
  have h0 := sum_eq_zero_of_nonneg _ (by
    intro x hx
    obtain ⟨t, ht, rfl⟩ := List.mem_map.mp hx
    exact mul_nonneg (hw t ht) (sq_nonneg _)) hden
  apply List.sum_eq_zero
  intro x hx
  obtain ⟨t, ht, rfl⟩ := List.mem_map.mp hx
  have h1 : t.1 * (t.2.1 - mx) ^ 2 = 0 := h0 _ (List.mem_map.mpr ⟨t, ht, rfl⟩)
  rcases mul_eq_zero.mp h1 with h2 | h2
  · rw [h2]; ring
  · have h3 : t.2.1 - mx = 0 := by simpa using h2
    rw [h3]; ring

/-- The algebra behind the minimisation: with the normal equation
`num = s*den`, the difference of the two sums of squares is the weighted sum of
the squares of `(a - s)*x + (b - t)`. -/
theorem fit_algebra (Sw Sx Sy Sxx Sxy Syy mx my num den s a b : ℚ)
    (hmx : mx * Sw = Sx) (hmy : my * Sw = Sy)
    (hnum : num = Sxy - my * Sx - mx * Sy + mx * my * Sw)
    (hden : den = Sxx - 2 * mx * Sx + mx ^ 2 * Sw)
    (hnormal : num - s * den = 0)
    (hq : 0 ≤ (a - s) ^ 2 * Sxx + (b - (my - s * mx)) ^ 2 * Sw
            + 2 * (a - s) * (b - (my - s * mx)) * Sx) :
    Syy + s ^ 2 * Sxx + (my - s * mx) ^ 2 * Sw - 2 * s * Sxy - 2 * (my - s * mx) * Sy
        + 2 * s * (my - s * mx) * Sx
      ≤ Syy + a ^ 2 * Sxx + b ^ 2 * Sw - 2 * a * Sxy - 2 * b * Sy + 2 * a * b * Sx := by
  subst hmx hmy hnum hden
  have h2 : (s - a) * (Sxy - my * (mx * Sw) - mx * (my * Sw) + mx * my * Sw
      - s * (Sxx - 2 * mx * (mx * Sw) + mx ^ 2 * Sw)) = 0 := by
    rw [hnormal]; ring
  nlinarith [hq, h2]

/-- The rational fit minimises the weighted sum of squared residuals when the
weights are non-negative with a positive sum. -/
theorem ratFit_minimises (T : List (ℚ × ℚ × ℚ)) (hw : ∀ t ∈ T, 0 ≤ t.1)
    (hpos : 0 < (T.map (fun t => t.1)).sum) (a b : ℚ) :
    weightedSSR T (ratFit T).1 (ratFit T).2 ≤ weightedSSR T a b := by
  set Sw := (T.map (fun t => t.1)).sum with hSw
  set Sx := (T.map (fun t => t.2.1 * t.1)).sum with hSx
  set Sy := (T.map (fun t => t.2.2 * t.1)).sum with hSy
  set Sxx := (T.map (fun t => t.1 * t.2.1 ^ 2)).sum with hSxx
  set Sxy := (T.map (fun t => t.1 * t.2.1 * t.2.2)).sum with hSxy
  set Syy := (T.map (fun t => t.1 * t.2.2 ^ 2)).sum with hSyy
  set mx := Sx / Sw with hmx
  set my := Sy / Sw with hmy
  have hSw0 : Sw ≠ 0 := ne_of_gt hpos
  have hmxS : mx * Sw = Sx := by rw [hmx]; field_simp
  have hmyS : my * Sw = Sy := by rw [hmy]; field_simp
  set num := (T.map (fun t => t.1 * (t.2.1 - mx) * (t.2.2 - my))).sum with hnum
  set den := (T.map (fun t => t.1 * (t.2.1 - mx) ^ 2)).sum with hden
  have hnumE : num = Sxy - my * Sx - mx * Sy + mx * my * Sw := sum_weighted_product T mx my
  have hdenE : den = Sxx - 2 * mx * Sx + mx ^ 2 * Sw := by
    have h := sum_weighted_square T 0 1 (-mx)
    have e : (fun t : ℚ × ℚ × ℚ => t.1 * (0 * t.2.2 + 1 * t.2.1 + -mx) ^ 2)
        = (fun t => t.1 * (t.2.1 - mx) ^ 2) := by
      funext t; ring
    rw [e] at h
    rw [hden, h]; ring
  have hSSR : ∀ s t : ℚ, weightedSSR T s t
      = Syy + s ^ 2 * Sxx + t ^ 2 * Sw - 2 * s * Sxy - 2 * t * Sy + 2 * s * t * Sx := by
    intro s t
    have h := sum_weighted_square T 1 (-s) (-t)
    have e : (fun u : ℚ × ℚ × ℚ => u.1 * (1 * u.2.2 + -s * u.2.1 + -t) ^ 2)
        = (fun u => u.1 * (u.2.2 - (s * u.2.1 + t)) ^ 2) := by
      funext u; ring
    rw [e] at h
    unfold weightedSSR
    rw [h]; ring
  have hQ : ∀ p q : ℚ, 0 ≤ p ^ 2 * Sxx + q ^ 2 * Sw + 2 * p * q * Sx := by
    intro p q
    have h := sum_weighted_square T 0 p q
    have hnn : 0 ≤ (T.map (fun t => t.1 * (0 * t.2.2 + p * t.2.1 + q) ^ 2)).sum := by
      apply List.sum_nonneg
      intro x hx
      obtain ⟨t, ht, rfl⟩ := List.mem_map.mp hx
      exact mul_nonneg (hw t ht) (sq_nonneg _)
    rw [h] at hnn
    linarith
  have hfit : ratFit T = ((if den = 0 then 0 else num / den),
      my - (if den = 0 then 0 else num / den) * mx) := rfl
  set s := (if den = 0 then 0 else num / den) with hs
  have hnormal : num - s * den = 0 := by
    by_cases hd : den = 0
    · have hn : num = 0 := numerator_zero_of_denominator_zero T mx my hw hd
      rw [hn, hd]; ring
    · rw [hs, if_neg hd]; field_simp
  rw [hfit]
  simp only
  rw [hSSR, hSSR]
  exact fit_algebra Sw Sx Sy Sxx Sxy Syy mx my num den s a b hmxS hmyS hnumE hdenE hnormal
    (hQ (a - s) (b - (my - s * mx)))

/-- On triples whose points lie on the line `y = a*x + b`, with a non-zero sum
of weights and a non-zero denominator, the rational fit is that line. -/
theorem ratFit_linear (T : List (ℚ × ℚ × ℚ)) (a b : ℚ)
    (hlin : ∀ t ∈ T, t.2.2 = a * t.2.1 + b)
    (hs : (T.map (fun t => t.1)).sum ≠ 0)
    (hden : (T.map (fun t => t.1 *
      (t.2.1 - (T.map (fun t => t.2.1 * t.1)).sum / (T.map (fun t => t.1)).sum) ^ 2)).sum ≠ 0) :
    ratFit T = (a, b) := by
  set Sw := (T.map (fun t => t.1)).sum with hSw
  set mx := (T.map (fun t => t.2.1 * t.1)).sum / Sw with hmx
  have hSy : (T.map (fun t => t.2.2 * t.1)).sum
      = a * (T.map (fun t => t.2.1 * t.1)).sum + b * Sw := by
    have e : T.map (fun t => t.2.2 * t.1) = T.map (fun t => a * (t.2.1 * t.1) + b * t.1) :=
      List.map_congr_left (fun t ht => by rw [hlin t ht]; ring)
    rw [e, List.sum_map_add, List.sum_map_mul_left, List.sum_map_mul_left]
  have hmy : (T.map (fun t => t.2.2 * t.1)).sum / Sw = a * mx + b := by
    rw [hSy, hmx]; field_simp
  have hnum : (T.map (fun t => t.1 * (t.2.1 - mx) * (t.2.2 - (a * mx + b)))).sum
      = a * (T.map (fun t => t.1 * (t.2.1 - mx) ^ 2)).sum := by
    have e : T.map (fun t => t.1 * (t.2.1 - mx) * (t.2.2 - (a * mx + b)))
        = T.map (fun t => a * (t.1 * (t.2.1 - mx) ^ 2)) :=
      List.map_congr_left (fun t ht => by rw [hlin t ht]; ring)
    rw [e, List.sum_map_mul_left]
  unfold ratFit
  simp only [← hSw, ← hmx, hmy, hnum, if_neg hden]
  rw [mul_div_assoc, div_self hden]
  simp

theorem sum_replicate_rat (n : ℕ) (c : ℚ) : (List.replicate n c).sum = n * c := by
  induction n with
  | zero => simp
  | succ k ih => simp [List.replicate_succ, ih]; ring

/-- The sum of the products of a list with equal weights. -/
theorem sum_zip_replicate (v : List ℚ) (c : ℚ) :
    ((v.zip (List.replicate v.length c)).map (fun vw => vw.1 * vw.2)).sum = v.sum * c := by
  induction v with
  | nil => simp
  | cons x xs ih =>
    simp only [List.length_cons, List.replicate_succ, List.zip_cons_cons, List.map_cons,
      List.sum_cons, ih]
    ring

/-! ## The window of `findNearest` in `float64` -/

/-- The total width of the specification is the difference of two x-values that
bound all the others. -/
theorem specTotalWidth_eq (observations : List Observation) (lo hi : ℚ)
    (hlo : lo ∈ observations.map Prod.fst) (hhi : hi ∈ observations.map Prod.fst)
    (hlo2 : ∀ x ∈ observations.map Prod.fst, lo ≤ x)
    (hhi2 : ∀ x ∈ observations.map Prod.fst, x ≤ hi) :
    specTotalWidth observations = hi - lo := by
  unfold specTotalWidth
  generalize observations.map Prod.fst = xs at *
  cases xs with
  | nil => simp at hlo
  | cons x xs =>
    simp only
    have hmax : xs.foldl max x = hi := by
      apply le_antisymm
      · exact foldl_max_le xs x hi (hhi2 x (List.mem_cons_self _ _))
          (fun y hy => hhi2 y (List.mem_cons_of_mem _ hy))
      · rcases List.mem_cons.mp hhi with h | h
        · rw [h]; exact (foldl_max_ge xs x).1
        · exact (foldl_max_ge xs x).2 hi h
    have hmin : xs.foldl min x = lo := by
      apply le_antisymm
      · rcases List.mem_cons.mp hlo with h | h
        · rw [h]; exact (foldl_min_le xs x).1
        · exact (foldl_min_le xs x).2 lo h
      · exact foldl_min_ge xs x lo (hlo2 x (List.mem_cons_self _ _))
          (fun y hy => hlo2 y (List.mem_cons_of_mem _ hy))
    rw [hmax, hmin]

/-- A bandwidth in `(0, 1]` passes the check of `findNearest` and `CalcLOESS`. -/
theorem bandwidth_ok (b : ℚ) (hb : 0 < b ∧ b ≤ 1) :
    (F64.le (F64.fin b) (F64.fin 0) || F64.gt (F64.fin b) (F64.fin 1)) = false := by
  simp only [F64.le_fin, F64.gt, F64.lt_fin, Bool.or_eq_false_iff, decide_eq_false_iff_not,
    not_le, not_lt]
  exact hb

/-- On a rearrangement of a non-empty list of finite observations, with a
bandwidth in `(0, 1]`, `findNearest` sorts the slice by x, keeps the elements in
the window with the rounded ends of `specWindow`, each with its distance, and
sorts them by distance. -/
theorem findNearest_window_eq (observations : List Observation) (hne : observations ≠ [])
    (coords : List Coord) (hperm : coords.Perm (observations.map Observation.toCoord))
    (q b : ℚ) (hb : 0 < b ∧ b ≤ 1) :
    findNearest coords (F64.fin q) (F64.fin b)
      = (sortSort CoordSlice.Less coords,
          Exec.returned
            (sortSort coordDistSlice.Less
              (((sortSort CoordSlice.Less coords).filter
                  (fun c => F64.le (specWindow observations q b).1 c.X
                    && F64.le c.X (specWindow observations q b).2)).map
                (fun c => { coord := c, dist := findDist (F64.fin q) c.X })), none)) := by
  set sorted := sortSort CoordSlice.Less coords with hsorted
  have hps : sorted.Perm (observations.map Observation.toCoord) :=
    (sortSort_perm _ _).trans hperm
  have hfin : ∀ c ∈ coords, c.X.isFinite = true := by
    intro c hc
    obtain ⟨o, _, rfl⟩ := List.mem_map.mp (hperm.mem_iff.mp hc)
    rfl
  have hpw : sorted.Pairwise (fun a b => a.X.toRat ≤ b.X.toRat) :=
    sortSort_coords_sorted coords hfin
  have hmemS : ∀ c ∈ sorted, ∃ o ∈ observations, c = Observation.toCoord o := by
    intro c hc
    obtain ⟨o, ho, rfl⟩ := List.mem_map.mp (hps.mem_iff.mp hc)
    exact ⟨o, ho, rfl⟩
  have hsne : sorted ≠ [] := by
    intro h
    rw [h] at hps
    have h1 := hps.length_eq
    simp only [List.length_nil, List.length_map] at h1
    exact hne (List.length_eq_zero.mp h1.symm)
  obtain ⟨first, rest, hfr⟩ : ∃ first rest, sorted = first :: rest := by
    cases hs : sorted with
    | nil => exact absurd hs hsne
    | cons x xs => exact ⟨x, xs, rfl⟩
  have hhead : sorted.head? = some first := by rw [hfr]; rfl
  have hlast : sorted.getLast? = some (sorted.getLast hsne) :=
    List.getLast?_eq_getLast _ _
  set last := sorted.getLast hsne with hlastdef
  have hfirstmem : first ∈ sorted := by rw [hfr]; exact List.mem_cons_self _ _
  have hlastmem : last ∈ sorted := List.mem_of_getLast?_eq_some hlast
  obtain ⟨of, hof, hofe⟩ := hmemS first hfirstmem
  obtain ⟨ol, hol, hole⟩ := hmemS last hlastmem
  have hW : specTotalWidth observations = ol.1 - of.1 := by
    apply specTotalWidth_eq
    · exact List.mem_map.mpr ⟨of, hof, rfl⟩
    · exact List.mem_map.mpr ⟨ol, hol, rfl⟩
    · intro x hx
      obtain ⟨o, ho, rfl⟩ := List.mem_map.mp hx
      have hoS : Observation.toCoord o ∈ sorted :=
        hps.mem_iff.mpr (List.mem_map.mpr ⟨o, ho, rfl⟩)
      rw [hfr] at hoS hpw
      rcases List.mem_cons.mp hoS with h | h
      · have h2 : (Observation.toCoord o).X.toRat = (Observation.toCoord of).X.toRat := by
          rw [h, hofe]
        exact le_of_eq h2.symm
      · have h2 := (List.pairwise_cons.mp hpw).1 _ h
        rw [hofe] at h2
        exact h2
    · intro x hx
      obtain ⟨o, ho, rfl⟩ := List.mem_map.mp hx
      have hoS : Observation.toCoord o ∈ sorted :=
        hps.mem_iff.mpr (List.mem_map.mpr ⟨o, ho, rfl⟩)
      have h2 := pairwise_getLast (fun a b : Coord => a.X.toRat ≤ b.X.toRat)
        (fun a => le_refl _) sorted last hlast hpw _ hoS
      rw [hole] at h2
      exact h2
  have hwidth : last.X - first.X = F64.round64 (specTotalWidth observations) := by
    rw [hole, hofe, toCoord_X, toCoord_X, F64.fin_sub, hW]
  rw [findNearest_eq coords (F64.fin q) (F64.fin b) (bandwidth_ok b hb) first last hhead hlast,
    selectWindow_eq_filter, hwidth]
  rfl

/-- The distance of two finite numbers is the absolute value of their rounded
difference, and it is not negative. -/
theorem findDist_fin (x y : ℚ) :
    findDist (F64.fin x) (F64.fin y) = F64.abs (F64.round64 (x - y)) ∧
      F64.le (F64.fin 0) (findDist (F64.fin x) (F64.fin y)) = true := by
  unfold findDist
  rw [F64.fin_sub]
  refine ⟨rfl, ?_⟩
  have h := F64.round64_ne_nan (x - y)
  cases hr : F64.round64 (x - y) with
  | fin m => simp [F64.abs, F64.le]
  | pinf => rfl
  | ninf => rfl
  | nan => exact absurd hr h

/-! ## The order of the observations -/

/-- Two rearrangements of each other, of finite x-values among which equal
x-values belong to equal elements, are sorted into the same slice. -/
theorem sortSort_eq_of_perm (c₁ c₂ : List Coord) (hperm : c₁.Perm c₂)
    (hfin : ∀ c ∈ c₁, c.X.isFinite = true)
    (hties : ∀ a ∈ c₁, ∀ b ∈ c₁, a.X = b.X → a = b) :
    sortSort CoordSlice.Less c₁ = sortSort CoordSlice.Less c₂ := by
  haveI : IsAntisymm Coord (fun a b => a.X.toRat < b.X.toRat ∨ a = b) :=
    ⟨fun a b h₁ h₂ => by
      rcases h₁ with h₁ | h₁
      · rcases h₂ with h₂ | h₂
        · exact absurd h₁ (not_lt.mpr (le_of_lt h₂))
        · exact h₂.symm
      · exact h₁⟩
  have hfin₂ : ∀ c ∈ c₂, c.X.isFinite = true := fun c hc => hfin c (hperm.mem_iff.mpr hc)
  have key : ∀ l : List Coord, l.Perm c₁ →
      (sortSort CoordSlice.Less l).Pairwise (fun a b => a.X.toRat < b.X.toRat ∨ a = b) := by
    intro l hl
    have hf : ∀ c ∈ l, c.X.isFinite = true := fun c hc => hfin c (hl.mem_iff.mp hc)
    refine List.Pairwise.imp_of_mem ?_ (sortSort_coords_sorted l hf)
    intro a b ha hb hab
    have ha₁ : a ∈ c₁ := hl.mem_iff.mp ((sortSort_perm _ _).mem_iff.mp ha)
    have hb₁ : b ∈ c₁ := hl.mem_iff.mp ((sortSort_perm _ _).mem_iff.mp hb)
    rcases lt_or_eq_of_le hab with h | h
    · exact Or.inl h
    · refine Or.inr (hties a ha₁ b hb₁ ?_)
      rw [F64.eq_fin_toRat (hfin a ha₁), F64.eq_fin_toRat (hfin b hb₁), h]
  exact List.eq_of_perm_of_sorted
    (((sortSort_perm _ c₁).trans hperm).trans (sortSort_perm _ c₂).symm)
    (key c₁ (List.Perm.refl _)) (key c₂ hperm.symm)

/-- The outcome of the loop of `CalcLOESS` depends on the caller's slice only
through the slice as `sort.Sort` orders it. -/
theorem calcLoop_congr (bandwidth : F64) (qs : List F64) (c₁ c₂ : CoordSlice)
    (acc : List Coord) (h : sortSort CoordSlice.Less c₁ = sortSort CoordSlice.Less c₂) :
    (calcLoop bandwidth qs c₁ acc).2 = (calcLoop bandwidth qs c₂ acc).2 := by
  cases qs with
  | nil => simp [calcLoop]
  | cons q rest =>
    by_cases hb : (F64.le bandwidth (F64.fin 0) || F64.gt bandwidth (F64.fin 1)) = true
    · have e : ∀ c : CoordSlice, findNearest c q bandwidth
          = (c, Exec.returned ([], some findNearestError)) := by
        intro c; unfold findNearest; rw [if_pos hb]
      rw [calcLoop, calcLoop, e c₁, e c₂]
    · have e : findNearest c₁ q bandwidth = findNearest c₂ q bandwidth := by
        unfold findNearest
        rw [if_neg hb, if_neg hb]
        simp only [h]
      rw [calcLoop, calcLoop, e]

/-- The outcome of `CalcLOESS` on two rearrangements of each other, of finite
x-values among which equal x-values belong to equal elements. -/
theorem CalcLOESS_congr (qs : List F64) (c₁ c₂ : CoordSlice) (bandwidth : F64)
    (hperm : c₁.Perm c₂) (hfin : ∀ c ∈ c₁, c.X.isFinite = true)
    (hties : ∀ a ∈ c₁, ∀ b ∈ c₁, a.X = b.X → a = b) :
    (CalcLOESS qs c₁ bandwidth).2 = (CalcLOESS qs c₂ bandwidth).2 := by
  unfold CalcLOESS
  split
  · rfl
  · exact calcLoop_congr bandwidth qs c₁ c₂ [] (sortSort_eq_of_perm c₁ c₂ hperm hfin hties)

/-- `CalcLOESS` leaves in the caller's slice the observations it found there. -/
theorem CalcLOESS_perm (qs : List F64) (coordinates : CoordSlice) (bandwidth : F64) :
    (CalcLOESS qs coordinates bandwidth).1.Perm coordinates := by
  unfold CalcLOESS
  split
  · exact List.Perm.refl _
  · exact calcLoop_perm _ _ _ _

/-! ## One estimation point after the other -/

/-- The neighbourhood that `findNearest` returns on a rearrangement of finite
observations, with a bandwidth in `(0, 1]`: a rearrangement of the observations
in the window, in ascending order of distance. -/
theorem findNearest_neighbourhood (observations : List Observation) (hne : observations ≠ [])
    (coords : List Coord) (hperm : coords.Perm (observations.map Observation.toCoord))
    (q b : ℚ) (hb : 0 < b ∧ b ≤ 1) :
    ∃ N : coordDistSlice,
      findNearest coords (F64.fin q) (F64.fin b)
        = (sortSort CoordSlice.Less coords, Exec.returned (N, none)) ∧
      N.Perm ((observations.filter (specInWindow observations q b)).map
        (fun o => { coord := o.toCoord, dist := findDist (F64.fin q) (F64.fin o.1) })) ∧
      N.Pairwise (fun c d => F64.le c.dist d.dist = true) := by
  refine ⟨_, findNearest_window_eq observations hne coords hperm q b hb, ?_, ?_⟩
  · refine (sortSort_perm _ _).trans ?_
    refine ((((sortSort_perm CoordSlice.Less coords).trans hperm).filter _).map
      _).trans (List.Perm.of_eq ?_)
    rw [List.filter_map, List.map_map]
    rfl
  · apply sortSort_dists_sorted
    intro cd hcd
    obtain ⟨c, hc, rfl⟩ := List.mem_map.mp hcd
    have hc1 : c ∈ coords :=
      (sortSort_perm _ _).mem_iff.mp (List.mem_filter.mp hc).1
    obtain ⟨o, _, rfl⟩ := List.mem_map.mp (hperm.mem_iff.mp hc1)
    exact findDist_ne_nan _ _

/-- The loop of `CalcLOESS` on a rearrangement of finite observations, with a
bandwidth in `(0, 1]` and queries whose windows are not empty: it returns one
point per query, in order, and the point for the query `q` is
`(q, slope*q + intercept)` for the fit that `wLSRegression` returns on the
observations in the window of `q`, arranged in ascending order of distance,
under the weights that `tricubeWeightFunction` returns for them. -/
theorem calcLoop_pipeline (observations : List Observation) (hne : observations ≠ [])
    (b : ℚ) (hb : 0 < b ∧ b ≤ 1) (queries : List ℚ) :
    (∀ q ∈ queries, ∃ o ∈ observations, specInWindow observations q b o = true) →
    ∀ (coords : List Coord) (acc : List Coord),
      coords.Perm (observations.map Observation.toCoord) →
      ∃ points : List Coord,
        (calcLoop (F64.fin b) (queries.map F64.fin) coords acc).2
          = Exec.returned (acc ++ points, none) ∧
        List.Forall₂
          (fun q p => ∃ (N : coordDistSlice) (weights : List F64) (slope intercept : F64),
            N.Perm ((observations.filter (specInWindow observations q b)).map
              (fun o => { coord := o.toCoord, dist := findDist (F64.fin q) (F64.fin o.1) })) ∧
            N.Pairwise (fun c d => F64.le c.dist d.dist = true) ∧
            tricubeWeightFunction N = Exec.returned weights ∧
            wLSRegression N weights = (slope, intercept, none) ∧
            p = { X := F64.fin q, Y := slope * F64.fin q + intercept })
          queries points := by
  induction queries with
  | nil =>
    intro _ coords acc _
    exact ⟨[], by simp [calcLoop], List.Forall₂.nil⟩
  | cons q rest ih =>
    intro hq coords acc hperm
    obtain ⟨N, hfn, hNperm, hNsorted⟩ :=
      findNearest_neighbourhood observations hne coords hperm q b hb
    have hNne : N ≠ [] := by
      obtain ⟨o, ho, hwin⟩ := hq q (List.mem_cons_self _ _)
      intro h
      rw [h] at hNperm
      have h1 := hNperm.length_eq
      simp only [List.length_nil, List.length_map] at h1
      have h2 : o ∈ observations.filter (specInWindow observations q b) :=
        List.mem_filter.mpr ⟨ho, hwin⟩
      rw [List.length_eq_zero.mp h1.symm] at h2
      simp at h2
    have hlast : N.getLast? = some (N.getLast hNne) := List.getLast?_eq_getLast _ _
    have htri := tricubeWeightFunction_eq N _ hlast
    set weights := N.map (fun cd =>
      F64.pow (F64.fin 1 - F64.pow (F64.abs (cd.dist / (N.getLast hNne).dist)) 3) 3)
      with hweights
    have hwls : wLSRegression N weights
        = ((wLSRegression N weights).1, (wLSRegression N weights).2.1, none) := by
      have h := wLSRegression_no_error N weights (by rw [hweights, List.length_map])
      rw [← h]
    obtain ⟨points, hrest, hall⟩ := ih
      (fun q' hq' => hq q' (List.mem_cons_of_mem _ hq'))
      (sortSort CoordSlice.Less coords)
      (acc ++ [{ X := F64.fin q,
                 Y := (wLSRegression N weights).1 * F64.fin q + (wLSRegression N weights).2.1 }])
      ((sortSort_perm _ _).trans hperm)
    refine ⟨{ X := F64.fin q,
              Y := (wLSRegression N weights).1 * F64.fin q + (wLSRegression N weights).2.1 }
              :: points, ?_, ?_⟩
    · rw [List.map_cons, calcLoop, hfn]
      simp only
      rw [htri]
      simp only
      rw [hwls]
      simp only
      rw [hrest, List.append_assoc]
      rfl
    · exact List.Forall₂.cons
        ⟨N, weights, _, _, hNperm, hNsorted, htri, hwls, rfl⟩ hall

/-! ## A call step by step -/

/-- `wLSRegression` from its intermediate results: the two weighted means, the
two sums of the loop, the slope and the intercept. -/
theorem wLSRegression_steps (coordinates : coordDistSlice) (weights : List F64)
    (meanX meanY sumN sumD slope intercept : F64)
    (hlen : weights.length = coordinates.length)
    (hx : weightedMean (coordinates.map (fun cd => cd.coord.X)) weights = (meanX, none))
    (hy : weightedMean (coordinates.map (fun cd => cd.coord.Y)) weights = (meanY, none))
    (hsums : (weights.zip ((coordinates.map (fun cd => cd.coord.X)).zip
          (coordinates.map (fun cd => cd.coord.Y)))).foldl
        (fun s wxy =>
          (s.1 + wxy.1 * (wxy.2.1 - meanX) * (wxy.2.2 - meanY),
           s.2 + wxy.1 * F64.pow (wxy.2.1 - meanX) 2))
        (F64.fin 0, F64.fin 0) = (sumN, sumD))
    (hslope : (if F64.eq sumD (F64.fin 0) then F64.fin 0 else sumN / sumD) = slope)
    (hintercept : meanY - slope * meanX = intercept) :
    wLSRegression coordinates weights = (slope, intercept, none) := by
  unfold wLSRegression
  rw [if_neg (by simp [hlen])]
  simp only
  rw [hx]
  simp only
  rw [hy]
  simp only
  rw [hsums]
  simp only
  rw [hslope, hintercept]

/-- `CalcLOESS` for one estimation point from the results of the three stages
and the value of the line at the point. -/
theorem CalcLOESS_steps (q bandwidth : F64) (coordinates after : CoordSlice)
    (neighbours : coordDistSlice) (weights : List F64) (slope intercept y : F64)
    (hb : (F64.le bandwidth (F64.fin 0) || F64.gt bandwidth (F64.fin 1)) = false)
    (hfind : findNearest coordinates q bandwidth = (after, Exec.returned (neighbours, none)))
    (hweights : tricubeWeightFunction neighbours = Exec.returned weights)
    (hfit : wLSRegression neighbours weights = (slope, intercept, none))
    (hy : slope * q + intercept = y) :
    (CalcLOESS [q] coordinates bandwidth).2 = Exec.returned ([{ X := q, Y := y }], none) := by
  unfold CalcLOESS
  rw [hb]
  simp only [Bool.false_eq_true, if_false]
  rw [calcLoop, hfind]
  simp only
  rw [hweights]
  simp only
  rw [hfit]
  simp only [calcLoop, List.nil_append]
  rw [hy]

/-- With a finite non-zero largest (last) distance, a neighbour at distance 0
gets the weight 1. -/
theorem tricubeWeightFunction_zero_dist (sortedCoordDists : coordDistSlice)
    (last : coordDist) (hlast : sortedCoordDists.getLast? = some last)
    (D : ℚ) (hD : last.dist = F64.fin D) (hD0 : D ≠ 0) :
    ∃ weights : List F64,
      tricubeWeightFunction sortedCoordDists = Exec.returned weights ∧
      weights.length = sortedCoordDists.length ∧
      ∀ (i : ℕ) (cd : coordDist), sortedCoordDists[i]? = some cd → cd.dist = F64.fin 0 →
        weights[i]? = some (F64.fin 1) := by
  refine ⟨_, tricubeWeightFunction_eq sortedCoordDists last hlast, ?_, ?_⟩
  · simp
  · intro i cd hi hcd
    simp only [List.getElem?_map, hi, Option.map_some', hcd, hD]
    rw [F64.fin_div _ _ hD0, zero_div]
    decide!

/-! ## The claims -/

/-- C1: a bandwidth `b <= 0` or `b > 1` makes `CalcLOESS` return an error, for
every query list and every observation list, the empty one included; and
`findNearest` returns an error for it too, without indexing (or reordering) the
observations. -/
theorem bandwidth_rejected (estimationPoints : List F64) (coordinates : List Coord)
    (targetX bandwidth : F64)
    (hb : F64.le bandwidth (F64.fin 0) = true ∨ F64.gt bandwidth (F64.fin 1) = true) :
    CalcLOESS estimationPoints coordinates bandwidth
        = (coordinates, Exec.returned ([], some calcLOESSError)) ∧
      findNearest coordinates targetX bandwidth
        = (coordinates, Exec.returned ([], some findNearestError)) := by
  have h : (F64.le bandwidth (F64.fin 0) || F64.gt bandwidth (F64.fin 1)) = true := by
    simpa using hb
  simp [CalcLOESS, findNearest, h]

/-- C1, witness: bandwidth `0` on an empty observation list. -/
theorem bandwidth_rejected_witness :
    (F64.le (F64.fin 0) (F64.fin 0) = true ∨ F64.gt (F64.fin 0) (F64.fin 1) = true) ∧
    (CalcLOESS [F64.fin 1] [] (F64.fin 0) = ([], Exec.returned ([], some calcLOESSError)) ∧
      findNearest [] (F64.fin 1) (F64.fin 0) = ([], Exec.returned ([], some findNearestError))) :=
  ⟨Or.inl (by decide!), bandwidth_rejected [F64.fin 1] [] (F64.fin 1) (F64.fin 0) (Or.inl (by decide!))⟩

/-- C2: whenever `CalcLOESS` returns a result (which it does only for a bandwidth
that passed its check, so in particular for the valid inputs), the output has as
many points as `estimationPoints`, and the x-values of the output are the
estimation points in input order. -/
theorem CalcLOESS_preserves_order (estimationPoints : List F64) (coordinates : List Coord)
    (bandwidth : F64) (after : CoordSlice) (loessPoints : List Coord)
    (h : CalcLOESS estimationPoints coordinates bandwidth
          = (after, Exec.returned (loessPoints, none))) :
    loessPoints.length = estimationPoints.length ∧
      loessPoints.map Coord.X = estimationPoints := by
  unfold CalcLOESS at h
  split at h
  · simp at h
  · obtain ⟨new, h1, h2⟩ := calcLoop_points _ _ _ _ _ _ h
    simp only [List.nil_append] at h1
    subst h1
    exact ⟨by rw [← h2, List.length_map], h2⟩

/-- C2, witness: the queries `2, 1` on four observations given out of order; the
output keeps the order `2, 1`. -/
theorem CalcLOESS_preserves_order_witness :
    [({ X := F64.fin 2, Y := F64.fin 2 } : Coord), { X := F64.fin 1, Y := F64.fin 1 }].length
        = [F64.fin 2, F64.fin 1].length ∧
      [({ X := F64.fin 2, Y := F64.fin 2 } : Coord), { X := F64.fin 1, Y := F64.fin 1 }].map Coord.X
        = [F64.fin 2, F64.fin 1] :=
  CalcLOESS_preserves_order [F64.fin 2, F64.fin 1]
    [⟨F64.fin 1, F64.fin 1⟩, ⟨F64.fin 0, F64.fin 0⟩, ⟨F64.fin 3, F64.fin 5⟩, ⟨F64.fin 2, F64.fin 2⟩]
    (F64.fin 1)
    [⟨F64.fin 0, F64.fin 0⟩, ⟨F64.fin 1, F64.fin 1⟩, ⟨F64.fin 2, F64.fin 2⟩, ⟨F64.fin 3, F64.fin 5⟩]
    [⟨F64.fin 2, F64.fin 2⟩, ⟨F64.fin 1, F64.fin 1⟩] (by decide!)

/-- C3, counterexample: the observations `(0.1, 0)`, `(0.2, 1)`, `(0.35, 4)`,
`(0.7, 0)`, the bandwidth 0.5 and the query 0.25.  The window of the claim,
`|x - q| <= b*W/2`, holds `(0.2, 1)` and `(0.35, 4)`, and the closed form over
them gives 1; `CalcLOESS` rounds the lower end of the window to the `float64`
number 0.1, fits `(0.1, 0)` as well and returns Y = 2. -/
theorem CalcLOESS_window_rounds :
    specNeighbors
        [((F64.round64 (1 / 10)).toRat, 0), ((F64.round64 (2 / 10)).toRat, 1),
          ((F64.round64 (35 / 100)).toRat, 4), ((F64.round64 (7 / 10)).toRat, 0)]
        (1 / 4) (1 / 2)
      = [((F64.round64 (2 / 10)).toRat, 1), ((F64.round64 (35 / 100)).toRat, 4)] ∧
    specEstimate
        [((F64.round64 (1 / 10)).toRat, 0), ((F64.round64 (2 / 10)).toRat, 1),
          ((F64.round64 (35 / 100)).toRat, 4), ((F64.round64 (7 / 10)).toRat, 0)]
        (1 / 4) (1 / 2) = 1 ∧
    (CalcLOESS [F64.fin (1 / 4)]
        (([((F64.round64 (1 / 10)).toRat, 0), ((F64.round64 (2 / 10)).toRat, 1),
          ((F64.round64 (35 / 100)).toRat, 4), ((F64.round64 (7 / 10)).toRat, 0)] :
          List Observation).map Observation.toCoord) (F64.fin (1 / 2))).2
      = Exec.returned ([{ X := F64.fin (1 / 4), Y := F64.fin 2 }], none) := by
  decide!

/-- C3, as amended: for every non-empty list of finite observations, every
bandwidth `b` in `(0,1]` and every list of queries such that the window of each
query `q` holds two observations at different distances from `q`, `CalcLOESS`
succeeds with one point per query, and its i-th point is the i-th query `q` with
`Y = slope*q + intercept`, every operation in `float64`, where slope and
intercept are the closed form of section 4.3 as `wLSRegression` evaluates it
over `N`, under the weights that `tricubeWeightFunction` computes on `N`; `N`
holds exactly the observations with `lo <= x <= hi`, each with its distance to
`q`, in ascending order of distance (so the largest distance `D` is that of its
last element), and `lo`, `hi` are the rounded ends `q - b*W/2`, `q + b*W/2` of
the window. -/
theorem CalcLOESS_pipeline (observations : List Observation) (queries : List ℚ) (b : ℚ)
    (hne : observations ≠ []) (hb : 0 < b ∧ b ≤ 1)
    (hq : ∀ q ∈ queries, ∃ o₁ ∈ observations, ∃ o₂ ∈ observations,
      specInWindow observations q b o₁ = true ∧ specInWindow observations q b o₂ = true ∧
      F64.lt (findDist (F64.fin q) (F64.fin o₁.1)) (findDist (F64.fin q) (F64.fin o₂.1))
        = true) :
    ∃ points : List Coord,
      (CalcLOESS (queries.map F64.fin) (observations.map Observation.toCoord) (F64.fin b)).2
        = Exec.returned (points, none) ∧
      queries.length = points.length ∧
      ∀ (i : ℕ) (hi : i < queries.length) (hj : i < points.length),
        ∃ (N : coordDistSlice) (weights : List F64) (slope intercept : F64),
          N.Perm ((observations.filter
              (specInWindow observations (queries.get ⟨i, hi⟩) b)).map
            (fun o => { coord := o.toCoord,
                        dist := findDist (F64.fin (queries.get ⟨i, hi⟩)) (F64.fin o.1) })) ∧
          N.Pairwise (fun c d => F64.le c.dist d.dist = true) ∧
          tricubeWeightFunction N = Exec.returned weights ∧
          wLSRegression N weights = (slope, intercept, none) ∧
          points.get ⟨i, hj⟩
            = { X := F64.fin (queries.get ⟨i, hi⟩),
                Y := slope * F64.fin (queries.get ⟨i, hi⟩) + intercept } := by
  obtain ⟨points, hrun, hall⟩ := calcLoop_pipeline observations hne b hb queries
    (fun q hq' => by
      obtain ⟨o₁, ho₁, _, _, hw, _, _⟩ := hq q hq'
      exact ⟨o₁, ho₁, hw⟩)
    (observations.map Observation.toCoord) [] (List.Perm.refl _)
  refine ⟨points, ?_, List.forall₂_iff_get.mp hall⟩
  unfold CalcLOESS
  rw [bandwidth_ok b hb]
  simp only [Bool.false_eq_true, if_false]
  rw [hrun, List.nil_append]

/-- C3, witness: the seven observations `(0.56, 18.64)` to `(5.11, 228.49)`,
the bandwidth 0.5 and the query 2.02: the window holds `(2.02, 103.50)` at the
distance 0 and `(2.58, 150.35)`, and `CalcLOESS` returns the single point
`(2.02, 103.50)`. -/
theorem CalcLOESS_pipeline_witness :
    (CalcLOESS ([(F64.round64 (202 / 100)).toRat].map F64.fin)
        (([((F64.round64 (56 / 100)).toRat, (F64.round64 (1864 / 100)).toRat),
          ((F64.round64 (202 / 100)).toRat, (F64.round64 (10350 / 100)).toRat),
          ((F64.round64 (258 / 100)).toRat, (F64.round64 (15035 / 100)).toRat),
          ((F64.round64 (341 / 100)).toRat, (F64.round64 (19051 / 100)).toRat),
          ((F64.round64 (430 / 100)).toRat, (F64.round64 (20870 / 100)).toRat),
          ((F64.round64 (474 / 100)).toRat, (F64.round64 (21371 / 100)).toRat),
          ((F64.round64 (511 / 100)).toRat, (F64.round64 (22849 / 100)).toRat)] :
          List Observation).map Observation.toCoord) (F64.fin (1 / 2))).2
      = Exec.returned
          ([{ X := F64.round64 (202 / 100), Y := F64.round64 (10350 / 100) }], none) ∧
    ∃ points : List Coord,
      (CalcLOESS ([(F64.round64 (202 / 100)).toRat].map F64.fin)
        (([((F64.round64 (56 / 100)).toRat, (F64.round64 (1864 / 100)).toRat),
          ((F64.round64 (202 / 100)).toRat, (F64.round64 (10350 / 100)).toRat),
          ((F64.round64 (258 / 100)).toRat, (F64.round64 (15035 / 100)).toRat),
          ((F64.round64 (341 / 100)).toRat, (F64.round64 (19051 / 100)).toRat),
          ((F64.round64 (430 / 100)).toRat, (F64.round64 (20870 / 100)).toRat),
          ((F64.round64 (474 / 100)).toRat, (F64.round64 (21371 / 100)).toRat),
          ((F64.round64 (511 / 100)).toRat, (F64.round64 (22849 / 100)).toRat)] :
          List Observation).map Observation.toCoord) (F64.fin (1 / 2))).2
        = Exec.returned (points, none) ∧
      [(F64.round64 (202 / 100)).toRat].length = points.length :=
  ⟨by decide!,
    (CalcLOESS_pipeline
      [((F64.round64 (56 / 100)).toRat, (F64.round64 (1864 / 100)).toRat),
        ((F64.round64 (202 / 100)).toRat, (F64.round64 (10350 / 100)).toRat),
        ((F64.round64 (258 / 100)).toRat, (F64.round64 (15035 / 100)).toRat),
        ((F64.round64 (341 / 100)).toRat, (F64.round64 (19051 / 100)).toRat),
        ((F64.round64 (430 / 100)).toRat, (F64.round64 (20870 / 100)).toRat),
        ((F64.round64 (474 / 100)).toRat, (F64.round64 (21371 / 100)).toRat),
        ((F64.round64 (511 / 100)).toRat, (F64.round64 (22849 / 100)).toRat)]
      [(F64.round64 (202 / 100)).toRat] (1 / 2) (by simp) (by norm_num) (by decide!)).imp
      (fun _ h => ⟨h.1, h.2.1⟩)⟩

/-- C4: when `CalcLOESS` returns an error, the sequence of points it returns
with it is empty. -/
theorem CalcLOESS_error_no_points (estimationPoints : List F64) (coordinates : List Coord)
    (bandwidth : F64) (after : CoordSlice) (loessPoints : List Coord) (e : String)
    (h : CalcLOESS estimationPoints coordinates bandwidth
          = (after, Exec.returned (loessPoints, some e))) :
    loessPoints = [] := by
  unfold CalcLOESS at h
  split at h
  · simp at h; exact h.2.1
  · exact calcLoop_error _ _ _ _ _ _ _ h

/-- C4, witness: the call with bandwidth `2`, which returns an error. -/
theorem CalcLOESS_error_no_points_witness :
    ([] : List Coord) = [] :=
  CalcLOESS_error_no_points [F64.fin 3] [⟨F64.fin 3, F64.fin 2⟩] (F64.fin 2)
    [⟨F64.fin 3, F64.fin 2⟩] [] calcLOESSError (by decide!)

/-- C5, counterexample: on the observations `(1,0), (0,0)` a call of
`findNearest`, and a call of `CalcLOESS`, leaves the caller's sequence in the
order `(0,0), (1,0)`. -/
theorem observations_order_changed :
    (findNearest [⟨F64.fin 1, F64.fin 0⟩, ⟨F64.fin 0, F64.fin 0⟩] (F64.fin 0) (F64.fin 1)).1
        ≠ [⟨F64.fin 1, F64.fin 0⟩, ⟨F64.fin 0, F64.fin 0⟩] ∧
      (CalcLOESS [F64.fin 0] [⟨F64.fin 1, F64.fin 0⟩, ⟨F64.fin 0, F64.fin 0⟩] (F64.fin 1)).1
        ≠ [⟨F64.fin 1, F64.fin 0⟩, ⟨F64.fin 0, F64.fin 0⟩] := by
  decide!

/-- C5, as amended: `findNearest` and `CalcLOESS` change the caller's observation
sequence by reordering only: after every call it holds the observations it held
before, each as often (a permutation of the original sequence). -/
theorem observations_only_reordered (estimationPoints : List F64) (coordinates : List Coord)
    (targetX bandwidth : F64) :
    (findNearest coordinates targetX bandwidth).1.Perm coordinates ∧
      (CalcLOESS estimationPoints coordinates bandwidth).1.Perm coordinates := by
  refine ⟨findNearest_perm _ _ _, ?_⟩
  unfold CalcLOESS
  split
  · exact List.Perm.refl _
  · exact calcLoop_perm _ _ _ _

/-- C6, the code at the failing input: for the observations `(0,0), (1,1)`,
bandwidth `1/2` and the query `5`, `findNearest` returns an empty neighbourhood
without error, and `CalcLOESS` then ends in the panic of
`sortedCoordDists[len(sortedCoordDists)-1]` instead of returning an error. -/
theorem CalcLOESS_empty_window_panics :
    (findNearest [⟨F64.fin 0, F64.fin 0⟩, ⟨F64.fin 1, F64.fin 1⟩] (F64.fin 5) (F64.fin (1/2))).2
        = Exec.returned ([], none) ∧
      (CalcLOESS [F64.fin 5] [⟨F64.fin 0, F64.fin 0⟩, ⟨F64.fin 1, F64.fin 1⟩] (F64.fin (1/2))).2
        = Exec.panicked indexPanic := by
  decide!

/-- C7, counterexample: a neighbourhood with the single neighbour `(1, 5)` at
distance 1 and the weight sequence `[0]` (the tricube weight of that neighbour)
have equal lengths and weights that sum to zero, and `wLSRegression` returns a
slope and an intercept with a nil error. -/
theorem wLSRegression_zero_weights_no_error :
    tricubeWeightFunction [⟨⟨F64.fin 1, F64.fin 5⟩, F64.fin 1⟩] = Exec.returned [F64.fin 0] ∧
      [F64.fin 0].foldl (fun s w => s + w) (F64.fin 0) = F64.fin 0 ∧
      wLSRegression [⟨⟨F64.fin 1, F64.fin 5⟩, F64.fin 1⟩] [F64.fin 0]
        = (F64.nan, F64.nan, none) := by
  decide!

/-- C7, as amended: for every neighbourhood and equal-length weight sequence
whose weights sum to zero, `wLSRegression` returns a nil error (its only error
is the one for unequal lengths). -/
theorem wLSRegression_zero_sum_returns_nil_error (coordinates : coordDistSlice)
    (weights : List F64) (hlen : weights.length = coordinates.length)
    (_hsum : weights.foldl (fun s w => s + w) (F64.fin 0) = F64.fin 0) :
    (wLSRegression coordinates weights).2.2 = none :=
  wLSRegression_no_error coordinates weights hlen

/-- C7, witness: the single neighbour `(1, 5)` with weight 0. -/
theorem wLSRegression_zero_sum_returns_nil_error_witness :
    (wLSRegression [⟨⟨F64.fin 1, F64.fin 5⟩, F64.fin 1⟩] [F64.fin 0]).2.2 = none :=
  wLSRegression_zero_sum_returns_nil_error [⟨⟨F64.fin 1, F64.fin 5⟩, F64.fin 1⟩] [F64.fin 0]
    (by decide) (by decide!)

/-- C8, the code at two failing inputs, both non-empty neighbourhoods whose
x-values are all identical.  For the observations `(0, 0)`, `(1, 5)`, the
bandwidth 0.5 and the query 0.75, `findNearest` returns the single neighbour
`(1, 5)` at the distance 0.25 and `tricubeWeightFunction` the weight 0; in
`wLSRegression` the weighted means are `0/0 = NaN`, `sumDenominator` is `NaN`,
the test `sumDenominator == 0` is false, slope and intercept are `NaN`, and
`CalcLOESS` returns `(0.75, NaN)`.  For the neighbours `(3.3, 5)` and `(3.3, 5)`
with the weights 0.7 and 0.2 the weighted mean of x rounds to a neighbour of
3.3, `sumDenominator` is not 0, and `wLSRegression` returns the slope 2 and the
intercept -1.5999999999999996, not 0 and the weighted mean of y, which is
5.000000000000001. -/
theorem wLSRegression_flat_line_fails :
    (findNearest [⟨F64.fin 0, F64.fin 0⟩, ⟨F64.fin 1, F64.fin 5⟩] (F64.fin (3 / 4))
        (F64.fin (1 / 2))).2
      = Exec.returned ([⟨⟨F64.fin 1, F64.fin 5⟩, F64.fin (1 / 4)⟩], none) ∧
    tricubeWeightFunction [⟨⟨F64.fin 1, F64.fin 5⟩, F64.fin (1 / 4)⟩]
      = Exec.returned [F64.fin 0] ∧
    wLSRegression [⟨⟨F64.fin 1, F64.fin 5⟩, F64.fin (1 / 4)⟩] [F64.fin 0]
      = (F64.nan, F64.nan, none) ∧
    (CalcLOESS [F64.fin (3 / 4)] [⟨F64.fin 0, F64.fin 0⟩, ⟨F64.fin 1, F64.fin 5⟩]
        (F64.fin (1 / 2))).2
      = Exec.returned ([{ X := F64.fin (3 / 4), Y := F64.nan }], none) ∧
    wLSRegression
        [⟨⟨F64.round64 (33 / 10), F64.fin 5⟩, F64.fin 0⟩,
          ⟨⟨F64.round64 (33 / 10), F64.fin 5⟩, F64.fin 0⟩]
        [F64.round64 (7 / 10), F64.round64 (2 / 10)]
      = (F64.fin 2, F64.round64 (-15999999999999996 / 10 ^ 16), none) ∧
    weightedMean [F64.fin 5, F64.fin 5] [F64.round64 (7 / 10), F64.round64 (2 / 10)]
      = (F64.round64 (5000000000000001 / 10 ^ 15), none) := by
  decide!

/-- C9, counterexample: the neighbours `(0, 0)` and `(2^-600, 1)` with the
weights 1 and 1.  The squares `(x - mean_x)^2` underflow to 0, so
`wLSRegression` takes the fallback and returns slope 0 and intercept 1/2, whose
weighted sum of squared residuals is 1/2; the line through the two points,
`y = 2^600 * x`, has the sum 0. -/
theorem wLSRegression_not_minimal :
    wLSRegression
        [⟨⟨F64.fin 0, F64.fin 0⟩, F64.fin 0⟩, ⟨⟨F64.fin (1 / 2 ^ 600), F64.fin 1⟩, F64.fin 0⟩]
        [F64.fin 1, F64.fin 1]
      = (F64.fin 0, F64.fin (1 / 2), none) ∧
    weightedSSR (triples
        [⟨⟨F64.fin 0, F64.fin 0⟩, F64.fin 0⟩, ⟨⟨F64.fin (1 / 2 ^ 600), F64.fin 1⟩, F64.fin 0⟩]
        [F64.fin 1, F64.fin 1]) (2 ^ 600) 0
      < weightedSSR (triples
        [⟨⟨F64.fin 0, F64.fin 0⟩, F64.fin 0⟩, ⟨⟨F64.fin (1 / 2 ^ 600), F64.fin 1⟩, F64.fin 0⟩]
        [F64.fin 1, F64.fin 1]) 0 (1 / 2) := by
  decide!

/-- C9, as amended: for every neighbourhood of finite points and every
equal-length sequence of finite, non-negative weights with a positive sum, on
which no `float64` operation of `wLSRegression` rounds, `wLSRegression` returns
(without error) a finite slope and intercept that minimise the weighted sum of
squared residuals over all lines `y = a*x + b`; the case in which the slope is
the fallback 0 is included. -/
theorem wLSRegression_minimises (coordinates : coordDistSlice) (weights : List F64)
    (hlen : weights.length = coordinates.length)
    (hc : ∀ cd ∈ coordinates, cd.coord.X.isFinite = true ∧ cd.coord.Y.isFinite = true)
    (hw : ∀ w ∈ weights, w.isFinite = true ∧ 0 ≤ w.toRat)
    (hpos : 0 < (weights.map F64.toRat).sum)
    (hexact : wLSRegressionExact (triples coordinates weights) = true) :
    ∃ slope intercept : ℚ,
      wLSRegression coordinates weights = (F64.fin slope, F64.fin intercept, none) ∧
      ∀ a b : ℚ, weightedSSR (triples coordinates weights) slope intercept
        ≤ weightedSSR (triples coordinates weights) a b := by
  have hs1 : 0 < ((triples coordinates weights).map (fun t => t.1)).sum := by
    rw [triples_weights coordinates weights hlen]; exact hpos
  have hT : ∀ t ∈ triples coordinates weights, 0 ≤ t.1 := by
    intro t ht
    obtain ⟨p, hp, rfl⟩ := List.mem_map.mp ht
    exact (hw _ (List.of_mem_zip hp).2).2
  refine ⟨(ratFit (triples coordinates weights)).1, (ratFit (triples coordinates weights)).2,
    wLSRegression_exact coordinates weights hlen hc (fun w h => (hw w h).1) hexact, ?_⟩
  intro a b
  exact ratFit_minimises _ hT hs1 a b

/-- C9, witness: the neighbours `(1, 2)`, `(0, 5)`, `(6, 9)` with the weights
1/2, 1/4 and 1/4; the fit is `y = x + 5/2`, which is through none of them. -/
theorem wLSRegression_minimises_witness :
    ∃ slope intercept : ℚ,
      wLSRegression
          [⟨⟨F64.fin 1, F64.fin 2⟩, F64.fin 0⟩, ⟨⟨F64.fin 0, F64.fin 5⟩, F64.fin 1⟩,
            ⟨⟨F64.fin 6, F64.fin 9⟩, F64.fin 5⟩]
          [F64.fin (1/2), F64.fin (1/4), F64.fin (1/4)]
        = (F64.fin slope, F64.fin intercept, none) ∧
      ∀ a b : ℚ,
        weightedSSR (triples
            [⟨⟨F64.fin 1, F64.fin 2⟩, F64.fin 0⟩, ⟨⟨F64.fin 0, F64.fin 5⟩, F64.fin 1⟩,
              ⟨⟨F64.fin 6, F64.fin 9⟩, F64.fin 5⟩]
            [F64.fin (1/2), F64.fin (1/4), F64.fin (1/4)]) slope intercept
          ≤ weightedSSR (triples
            [⟨⟨F64.fin 1, F64.fin 2⟩, F64.fin 0⟩, ⟨⟨F64.fin 0, F64.fin 5⟩, F64.fin 1⟩,
              ⟨⟨F64.fin 6, F64.fin 9⟩, F64.fin 5⟩]
            [F64.fin (1/2), F64.fin (1/4), F64.fin (1/4)]) a b :=
  wLSRegression_minimises
    [⟨⟨F64.fin 1, F64.fin 2⟩, F64.fin 0⟩, ⟨⟨F64.fin 0, F64.fin 5⟩, F64.fin 1⟩,
      ⟨⟨F64.fin 6, F64.fin 9⟩, F64.fin 5⟩]
    [F64.fin (1/2), F64.fin (1/4), F64.fin (1/4)]
    (by decide) (by decide) (by decide!) (by decide!) (by decide!)

/-- C10, the code at the failing input: for the observations `(0,0), (1,1)`,
bandwidth `1/2` and the query `1`, `findNearest` produces the neighbourhood that
holds `(1,1)` alone, at distance 0; on it `tricubeWeightFunction` divides 0 by
the largest distance 0 and returns the weight `NaN`, which is not in `[0, 1]`
(both comparisons with it are false). -/
theorem tricubeWeightFunction_zero_maxDist :
    (findNearest [⟨F64.fin 0, F64.fin 0⟩, ⟨F64.fin 1, F64.fin 1⟩] (F64.fin 1)
        (F64.fin (1/2))).2
        = Exec.returned ([⟨⟨F64.fin 1, F64.fin 1⟩, F64.fin 0⟩], none) ∧
      tricubeWeightFunction [⟨⟨F64.fin 1, F64.fin 1⟩, F64.fin 0⟩] = Exec.returned [F64.nan] ∧
      F64.le (F64.fin 0) F64.nan = false ∧ F64.le F64.nan (F64.fin 1) = false := by
  decide!

/-- C11, counterexample: two neighbours that both lie at distance 0 from the
query.  The largest distance is 0, every weight is `0/0 = NaN`, and the weight of
the last neighbour is not 0. -/
theorem tricubeWeightFunction_last_not_zero :
    tricubeWeightFunction
        [⟨⟨F64.fin 1, F64.fin 1⟩, F64.fin 0⟩, ⟨⟨F64.fin 1, F64.fin 2⟩, F64.fin 0⟩]
      = Exec.returned [F64.nan, F64.nan] ∧
    [F64.nan, F64.nan].getLast? ≠ some (F64.fin 0) := by
  decide!

/-- C11, as amended: for every non-empty neighbourhood whose last (largest)
distance is a finite number other than 0, the weight `tricubeWeightFunction`
gives to the last neighbour is exactly 0. -/
theorem tricubeWeightFunction_last_weight (sortedCoordDists : coordDistSlice)
    (last : coordDist) (hlast : sortedCoordDists.getLast? = some last)
    (D : ℚ) (hD : last.dist = F64.fin D) (hD0 : D ≠ 0) :
    ∃ weights : List F64,
      tricubeWeightFunction sortedCoordDists = Exec.returned weights ∧
      weights.getLast? = some (F64.fin 0) := by
  refine ⟨_, tricubeWeightFunction_eq sortedCoordDists last hlast, ?_⟩
  · simp only [List.getLast?_map, hlast, Option.map_some', hD]
    rw [F64.fin_div _ _ hD0, div_self hD0]
    decide!

/-- C11, witness: the neighbours at distances 0, 1 and 2. -/
theorem tricubeWeightFunction_last_weight_witness :
    ∃ weights : List F64,
      tricubeWeightFunction
          [⟨⟨F64.fin 2, F64.fin 1⟩, F64.fin 0⟩, ⟨⟨F64.fin 3, F64.fin 5⟩, F64.fin 1⟩,
            ⟨⟨F64.fin 0, F64.fin 7⟩, F64.fin 2⟩]
        = Exec.returned weights ∧
      weights.getLast? = some (F64.fin 0) :=
  tricubeWeightFunction_last_weight
    [⟨⟨F64.fin 2, F64.fin 1⟩, F64.fin 0⟩, ⟨⟨F64.fin 3, F64.fin 5⟩, F64.fin 1⟩,
      ⟨⟨F64.fin 0, F64.fin 7⟩, F64.fin 2⟩]
    ⟨⟨F64.fin 0, F64.fin 7⟩, F64.fin 2⟩ rfl 2 rfl (by norm_num)

/-- C12, the code at the failing input: for the observations `(0,0), (1,1)`,
bandwidth `1/2` and the query `1`, the neighbourhood of `findNearest` holds
`(1,1)` alone, at distance 0 (the query coincides with the data point); its
weight is `NaN`, not 1, and the estimate `CalcLOESS` returns for the query is
`NaN`. -/
theorem tricubeWeightFunction_zero_distance_nan :
    (findNearest [⟨F64.fin 0, F64.fin 0⟩, ⟨F64.fin 1, F64.fin 1⟩] (F64.fin 1)
        (F64.fin (1/2))).2
        = Exec.returned ([⟨⟨F64.fin 1, F64.fin 1⟩, F64.fin 0⟩], none) ∧
      tricubeWeightFunction [⟨⟨F64.fin 1, F64.fin 1⟩, F64.fin 0⟩] ≠ Exec.returned [F64.fin 1] ∧
      (CalcLOESS [F64.fin 1] [⟨F64.fin 0, F64.fin 0⟩, ⟨F64.fin 1, F64.fin 1⟩]
          (F64.fin (1/2))).2
        = Exec.returned ([⟨F64.fin 1, F64.nan⟩], none) := by
  decide!

/-- C13, counterexample: the values `2^53, 1, -2^53, 1` with the four weights
`1/4` (all of them `float64` numbers).  The sum of the products loses the first
`1/4` next to `2^51`, and `weightedMean` returns 1/4; the arithmetic mean is
1/2. -/
theorem weightedMean_equal_weights_rounds :
    weightedMean [F64.fin (2 ^ 53), F64.fin 1, F64.fin (-2 ^ 53), F64.fin 1]
        (List.replicate 4 (F64.fin (1 / 4)))
      = (F64.fin (1 / 4), none) ∧
    ([2 ^ 53, 1, -2 ^ 53, 1] : List ℚ).sum / 4 = 1 / 2 := by
  decide!

/-- C13, as amended: for every non-empty list `v` of `n` finite values and the
weight list of length `n` whose entries all equal `1/n`, `weightedMean` returns
no error; and when none of its `float64` operations rounds, it returns the
arithmetic mean `(sum of v)/n`. -/
theorem weightedMean_equal_weights (v : List ℚ) (hne : v ≠ []) :
    (weightedMean (v.map F64.fin)
        (List.replicate v.length (F64.fin (1 / (v.length : ℚ))))).2 = none ∧
    (weightedMeanExact v (List.replicate v.length (1 / (v.length : ℚ))) = true →
      weightedMean (v.map F64.fin) (List.replicate v.length (F64.fin (1 / (v.length : ℚ))))
        = (F64.fin (v.sum / (v.length : ℚ)), none)) := by
  have hn : (v.length : ℚ) ≠ 0 := by
    have : v.length ≠ 0 := fun h => hne (List.length_eq_zero.mp h)
    exact_mod_cast this
  refine ⟨by simp [weightedMean], fun hexact => ?_⟩
  have hw : List.replicate v.length (F64.fin (1 / (v.length : ℚ)))
      = (List.replicate v.length (1 / (v.length : ℚ))).map F64.fin := by
    rw [List.map_replicate]
  rw [hw, weightedMean_exact v _ (by simp) hexact, sum_zip_replicate, List.sum_replicate]
  congr 2
  rw [nsmul_eq_mul]
  field_simp

/-- C13, witness: the values 1, 2, 3 and 6 with the weights `1/4`; no operation
rounds and the mean is 3. -/
theorem weightedMean_equal_weights_witness :
    weightedMeanExact [1, 2, 3, 6]
        (List.replicate [(1 : ℚ), 2, 3, 6].length (1 / ([(1 : ℚ), 2, 3, 6].length : ℚ))) = true ∧
    weightedMean ([1, 2, 3, 6].map F64.fin)
        (List.replicate [(1 : ℚ), 2, 3, 6].length
          (F64.fin (1 / ([(1 : ℚ), 2, 3, 6].length : ℚ))))
      = (F64.fin ([(1 : ℚ), 2, 3, 6].sum / ([(1 : ℚ), 2, 3, 6].length : ℚ)), none) :=
  ⟨by decide!, (weightedMean_equal_weights [1, 2, 3, 6] (by simp)).2 (by decide!)⟩

/-- C14: `wLSRegression` returns an error exactly when the two lengths differ,
and then with slope 0 and intercept 0; when the lengths agree, neither of the
two `weightedMean` calls returns an error. -/
theorem wLSRegression_error_iff (coordinates : coordDistSlice) (weights : List F64) :
    ((wLSRegression coordinates weights).2.2 ≠ none
        ↔ weights.length ≠ coordinates.length) ∧
      (weights.length ≠ coordinates.length →
        wLSRegression coordinates weights
          = (F64.fin 0, F64.fin 0, some wLSRegressionError)) ∧
      (weights.length = coordinates.length →
        (weightedMean (coordinates.map (fun cd => cd.coord.X)) weights).2 = none ∧
        (weightedMean (coordinates.map (fun cd => cd.coord.Y)) weights).2 = none) := by
  refine ⟨?_, ?_, ?_⟩
  · constructor
    · intro h hlen
      exact h (wLSRegression_no_error coordinates weights hlen)
    · intro hlen
      simp [wLSRegression, hlen]
  · intro hlen
    simp [wLSRegression, hlen]
  · intro hlen
    simp [weightedMean, hlen]

/-- C14, witness: two neighbours with one weight (an error, slope 0 and intercept
0), and with two weights (no error from the `weightedMean` calls). -/
theorem wLSRegression_error_iff_witness :
    wLSRegression [⟨⟨F64.fin 1, F64.fin 5⟩, F64.fin 0⟩, ⟨⟨F64.fin 2, F64.fin 7⟩, F64.fin 1⟩]
        [F64.fin 1]
      = (F64.fin 0, F64.fin 0, some wLSRegressionError) ∧
    (weightedMean
        (([⟨⟨F64.fin 1, F64.fin 5⟩, F64.fin 0⟩, ⟨⟨F64.fin 2, F64.fin 7⟩, F64.fin 1⟩] :
          coordDistSlice).map (fun cd => cd.coord.X)) [F64.fin 1, F64.fin 0]).2 = none :=
  ⟨(wLSRegression_error_iff
      [⟨⟨F64.fin 1, F64.fin 5⟩, F64.fin 0⟩, ⟨⟨F64.fin 2, F64.fin 7⟩, F64.fin 1⟩]
      [F64.fin 1]).2.1 (by decide),
   ((wLSRegression_error_iff
      [⟨⟨F64.fin 1, F64.fin 5⟩, F64.fin 0⟩, ⟨⟨F64.fin 2, F64.fin 7⟩, F64.fin 1⟩]
      [F64.fin 1, F64.fin 0]).2.2 (by decide)).1⟩

/-- C15, counterexample: the observations `(0.9, 8)`, `(0.9, 1.6)`, `(0.6, 2.6)`,
`(1, 2)`, `(0.8, 4.2)`, with the tied x-values 0.9, and the same observations
with the first two exchanged; bandwidth 1 and the query 0.8.  Both calls fit the
same four neighbours under the same weights, but the two tied neighbours enter
the sums in the order in which the slice holds them, and the rounded sums
differ: the first call returns Y = 4.2, the second Y = 4.200000000000001.  The
proof follows each call through its stages. -/
theorem CalcLOESS_order_dependent :
    (CalcLOESS [F64.round64 (4 / 5)]
        [⟨F64.round64 (9 / 10), F64.fin 8⟩, ⟨F64.round64 (9 / 10), F64.round64 (8 / 5)⟩,
          ⟨F64.round64 (3 / 5), F64.round64 (13 / 5)⟩, ⟨F64.fin 1, F64.fin 2⟩,
          ⟨F64.round64 (4 / 5), F64.round64 (21 / 5)⟩] (F64.fin 1)).2
      = Exec.returned ([⟨F64.round64 (4 / 5), F64.round64 (21 / 5)⟩], none) ∧
    (CalcLOESS [F64.round64 (4 / 5)]
        [⟨F64.round64 (9 / 10), F64.round64 (8 / 5)⟩, ⟨F64.round64 (9 / 10), F64.fin 8⟩,
          ⟨F64.round64 (3 / 5), F64.round64 (13 / 5)⟩, ⟨F64.fin 1, F64.fin 2⟩,
          ⟨F64.round64 (4 / 5), F64.round64 (21 / 5)⟩] (F64.fin 1)).2
      = Exec.returned
          ([⟨F64.round64 (4 / 5), F64.round64 (4200000000000001 / 1000000000000000)⟩], none) ∧
    F64.round64 (21 / 5) ≠ F64.round64 (4200000000000001 / 1000000000000000) := by
  refine ⟨?_, ?_, by decide!⟩
  · have afind : findNearest
            [⟨F64.round64 (9 / 10), F64.fin 8⟩, ⟨F64.round64 (9 / 10), F64.round64 (8 / 5)⟩,
              ⟨F64.round64 (3 / 5), F64.round64 (13 / 5)⟩, ⟨F64.fin 1, F64.fin 2⟩,
              ⟨F64.round64 (4 / 5), F64.round64 (21 / 5)⟩]
            (F64.round64 (4 / 5)) (F64.fin 1)
          = (
              [⟨F64.fin (5404319552844595 / 2 ^ 53), F64.fin (5854679515581645 / 2 ^ 51)⟩,
                ⟨F64.fin (3602879701896397 / 2 ^ 52), F64.fin (4728779608739021 / 2 ^ 50)⟩,
                ⟨F64.fin (8106479329266893 / 2 ^ 53), F64.fin 8⟩,
                ⟨F64.fin (8106479329266893 / 2 ^ 53), F64.fin (3602879701896397 / 2 ^ 51)⟩,
                ⟨F64.fin 1, F64.fin 2⟩],
              Exec.returned ((
                [⟨⟨F64.fin (3602879701896397 / 2 ^ 52), F64.fin (4728779608739021 / 2 ^ 50)⟩, F64.fin 0⟩,
                  ⟨⟨F64.fin (8106479329266893 / 2 ^ 53), F64.fin 8⟩, F64.fin (900719925474099 / 2 ^ 53)⟩,
                  ⟨⟨F64.fin (8106479329266893 / 2 ^ 53), F64.fin (3602879701896397 / 2 ^ 51)⟩, F64.fin (900719925474099 / 2 ^ 53)⟩,
                  ⟨⟨F64.fin 1, F64.fin 2⟩, F64.fin (900719925474099 / 2 ^ 52)⟩] : coordDistSlice), none)) := by
      decide!
    have aweights : tricubeWeightFunction
            [⟨⟨F64.fin (3602879701896397 / 2 ^ 52), F64.fin (4728779608739021 / 2 ^ 50)⟩, F64.fin 0⟩,
              ⟨⟨F64.fin (8106479329266893 / 2 ^ 53), F64.fin 8⟩, F64.fin (900719925474099 / 2 ^ 53)⟩,
              ⟨⟨F64.fin (8106479329266893 / 2 ^ 53), F64.fin (3602879701896397 / 2 ^ 51)⟩, F64.fin (900719925474099 / 2 ^ 53)⟩,
              ⟨⟨F64.fin 1, F64.fin 2⟩, F64.fin (900719925474099 / 2 ^ 52)⟩]
          = Exec.returned
              [F64.fin 1, F64.fin (343 / 512), F64.fin (343 / 512), F64.fin 0] := by
      decide!
    have ameanX : weightedMean ((
            [⟨⟨F64.fin (3602879701896397 / 2 ^ 52), F64.fin (4728779608739021 / 2 ^ 50)⟩, F64.fin 0⟩,
              ⟨⟨F64.fin (8106479329266893 / 2 ^ 53), F64.fin 8⟩, F64.fin (900719925474099 / 2 ^ 53)⟩,
              ⟨⟨F64.fin (8106479329266893 / 2 ^ 53), F64.fin (3602879701896397 / 2 ^ 51)⟩, F64.fin (900719925474099 / 2 ^ 53)⟩,
              ⟨⟨F64.fin 1, F64.fin 2⟩, F64.fin (900719925474099 / 2 ^ 52)⟩] : coordDistSlice).map (fun cd => cd.coord.X))
            [F64.fin 1, F64.fin (343 / 512), F64.fin (343 / 512), F64.fin 0]
          = (F64.fin (7721530579815525 / 2 ^ 53), none) := by
      decide!
    have ameanY : weightedMean ((
            [⟨⟨F64.fin (3602879701896397 / 2 ^ 52), F64.fin (4728779608739021 / 2 ^ 50)⟩, F64.fin 0⟩,
              ⟨⟨F64.fin (8106479329266893 / 2 ^ 53), F64.fin 8⟩, F64.fin (900719925474099 / 2 ^ 53)⟩,
              ⟨⟨F64.fin (8106479329266893 / 2 ^ 53), F64.fin (3602879701896397 / 2 ^ 51)⟩, F64.fin (900719925474099 / 2 ^ 53)⟩,
              ⟨⟨F64.fin 1, F64.fin 2⟩, F64.fin (900719925474099 / 2 ^ 52)⟩] : coordDistSlice).map (fun cd => cd.coord.Y))
            [F64.fin 1, F64.fin (343 / 512), F64.fin (343 / 512), F64.fin 0]
          = (F64.fin (5115607990756069 / 2 ^ 50), none) := by
      decide!
    have asums : ((
            [F64.fin 1, F64.fin (343 / 512), F64.fin (343 / 512), F64.fin 0] : List F64).zip (((
            [⟨⟨F64.fin (3602879701896397 / 2 ^ 52), F64.fin (4728779608739021 / 2 ^ 50)⟩, F64.fin 0⟩,
              ⟨⟨F64.fin (8106479329266893 / 2 ^ 53), F64.fin 8⟩, F64.fin (900719925474099 / 2 ^ 53)⟩,
              ⟨⟨F64.fin (8106479329266893 / 2 ^ 53), F64.fin (3602879701896397 / 2 ^ 51)⟩, F64.fin (900719925474099 / 2 ^ 53)⟩,
              ⟨⟨F64.fin 1, F64.fin 2⟩, F64.fin (900719925474099 / 2 ^ 52)⟩] : coordDistSlice).map (fun cd => cd.coord.X)).zip ((
            [⟨⟨F64.fin (3602879701896397 / 2 ^ 52), F64.fin (4728779608739021 / 2 ^ 50)⟩, F64.fin 0⟩,
              ⟨⟨F64.fin (8106479329266893 / 2 ^ 53), F64.fin 8⟩, F64.fin (900719925474099 / 2 ^ 53)⟩,
              ⟨⟨F64.fin (8106479329266893 / 2 ^ 53), F64.fin (3602879701896397 / 2 ^ 51)⟩, F64.fin (900719925474099 / 2 ^ 53)⟩,
              ⟨⟨F64.fin 1, F64.fin 2⟩, F64.fin (900719925474099 / 2 ^ 52)⟩] : coordDistSlice).map (fun cd => cd.coord.Y)))).foldl
          (fun s wxy =>
            (s.1 + wxy.1 * (wxy.2.1 - F64.fin (7721530579815525 / 2 ^ 53))
                * (wxy.2.2 - F64.fin (5115607990756069 / 2 ^ 50)),
             s.2 + wxy.1 * F64.pow (wxy.2.1 - F64.fin (7721530579815525 / 2 ^ 53)) 2))
          (F64.fin 0, F64.fin 0)
        = (F64.fin (2475701644909109 / 2 ^ 56),
            F64.fin (3300935526545479 / 2 ^ 59)) := by
      decide!
    have aslope :
        (if F64.eq (F64.fin (3300935526545479 / 2 ^ 59)) (F64.fin 0) then F64.fin 0
          else F64.fin (2475701644909109 / 2 ^ 56)
            / F64.fin (3300935526545479 / 2 ^ 59))
        = F64.fin (6755399441055743 / 2 ^ 50) := by
      decide!
    have aintercept :
        F64.fin (5115607990756069 / 2 ^ 50)
          - F64.fin (6755399441055743 / 2 ^ 50) * F64.fin (7721530579815525 / 2 ^ 53)
        = F64.fin (-337769972052787 / 2 ^ 49) := by
      decide!
    have avalue :
        F64.fin (6755399441055743 / 2 ^ 50) * F64.round64 (4 / 5)
          + F64.fin (-337769972052787 / 2 ^ 49)
        = F64.round64 (21 / 5) := by
      decide!
    exact CalcLOESS_steps _ _ _ _ _ _ _ _ _ (by decide!) afind aweights
      (wLSRegression_steps _ _ _ _ _ _ _ _ (by decide) ameanX ameanY asums aslope
        aintercept) avalue
  · have bfind : findNearest
            [⟨F64.round64 (9 / 10), F64.round64 (8 / 5)⟩, ⟨F64.round64 (9 / 10), F64.fin 8⟩,
              ⟨F64.round64 (3 / 5), F64.round64 (13 / 5)⟩, ⟨F64.fin 1, F64.fin 2⟩,
              ⟨F64.round64 (4 / 5), F64.round64 (21 / 5)⟩]
            (F64.round64 (4 / 5)) (F64.fin 1)
          = (
              [⟨F64.fin (5404319552844595 / 2 ^ 53), F64.fin (5854679515581645 / 2 ^ 51)⟩,
                ⟨F64.fin (3602879701896397 / 2 ^ 52), F64.fin (4728779608739021 / 2 ^ 50)⟩,
                ⟨F64.fin (8106479329266893 / 2 ^ 53), F64.fin (3602879701896397 / 2 ^ 51)⟩,
                ⟨F64.fin (8106479329266893 / 2 ^ 53), F64.fin 8⟩, ⟨F64.fin 1, F64.fin 2⟩],
              Exec.returned ((
                [⟨⟨F64.fin (3602879701896397 / 2 ^ 52), F64.fin (4728779608739021 / 2 ^ 50)⟩, F64.fin 0⟩,
                  ⟨⟨F64.fin (8106479329266893 / 2 ^ 53), F64.fin (3602879701896397 / 2 ^ 51)⟩, F64.fin (900719925474099 / 2 ^ 53)⟩,
                  ⟨⟨F64.fin (8106479329266893 / 2 ^ 53), F64.fin 8⟩, F64.fin (900719925474099 / 2 ^ 53)⟩,
                  ⟨⟨F64.fin 1, F64.fin 2⟩, F64.fin (900719925474099 / 2 ^ 52)⟩] : coordDistSlice), none)) := by
      decide!
    have bweights : tricubeWeightFunction
            [⟨⟨F64.fin (3602879701896397 / 2 ^ 52), F64.fin (4728779608739021 / 2 ^ 50)⟩, F64.fin 0⟩,
              ⟨⟨F64.fin (8106479329266893 / 2 ^ 53), F64.fin (3602879701896397 / 2 ^ 51)⟩, F64.fin (900719925474099 / 2 ^ 53)⟩,
              ⟨⟨F64.fin (8106479329266893 / 2 ^ 53), F64.fin 8⟩, F64.fin (900719925474099 / 2 ^ 53)⟩,
              ⟨⟨F64.fin 1, F64.fin 2⟩, F64.fin (900719925474099 / 2 ^ 52)⟩]
          = Exec.returned
              [F64.fin 1, F64.fin (343 / 512), F64.fin (343 / 512), F64.fin 0] := by
      decide!
    have bmeanX : weightedMean ((
            [⟨⟨F64.fin (3602879701896397 / 2 ^ 52), F64.fin (4728779608739021 / 2 ^ 50)⟩, F64.fin 0⟩,
              ⟨⟨F64.fin (8106479329266893 / 2 ^ 53), F64.fin (3602879701896397 / 2 ^ 51)⟩, F64.fin (900719925474099 / 2 ^ 53)⟩,
              ⟨⟨F64.fin (8106479329266893 / 2 ^ 53), F64.fin 8⟩, F64.fin (900719925474099 / 2 ^ 53)⟩,
              ⟨⟨F64.fin 1, F64.fin 2⟩, F64.fin (900719925474099 / 2 ^ 52)⟩] : coordDistSlice).map (fun cd => cd.coord.X))
            [F64.fin 1, F64.fin (343 / 512), F64.fin (343 / 512), F64.fin 0]
          = (F64.fin (7721530579815525 / 2 ^ 53), none) := by
      decide!
    have bmeanY : weightedMean ((
            [⟨⟨F64.fin (3602879701896397 / 2 ^ 52), F64.fin (4728779608739021 / 2 ^ 50)⟩, F64.fin 0⟩,
              ⟨⟨F64.fin (8106479329266893 / 2 ^ 53), F64.fin (3602879701896397 / 2 ^ 51)⟩, F64.fin (900719925474099 / 2 ^ 53)⟩,
              ⟨⟨F64.fin (8106479329266893 / 2 ^ 53), F64.fin 8⟩, F64.fin (900719925474099 / 2 ^ 53)⟩,
              ⟨⟨F64.fin 1, F64.fin 2⟩, F64.fin (900719925474099 / 2 ^ 52)⟩] : coordDistSlice).map (fun cd => cd.coord.Y))
            [F64.fin 1, F64.fin (343 / 512), F64.fin (343 / 512), F64.fin 0]
          = (F64.fin (2557803995378035 / 2 ^ 49), none) := by
      decide!
    have bsums : ((
            [F64.fin 1, F64.fin (343 / 512), F64.fin (343 / 512), F64.fin 0] : List F64).zip (((
            [⟨⟨F64.fin (3602879701896397 / 2 ^ 52), F64.fin (4728779608739021 / 2 ^ 50)⟩, F64.fin 0⟩,
              ⟨⟨F64.fin (8106479329266893 / 2 ^ 53), F64.fin (3602879701896397 / 2 ^ 51)⟩, F64.fin (900719925474099 / 2 ^ 53)⟩,
              ⟨⟨F64.fin (8106479329266893 / 2 ^ 53), F64.fin 8⟩, F64.fin (900719925474099 / 2 ^ 53)⟩,
              ⟨⟨F64.fin 1, F64.fin 2⟩, F64.fin (900719925474099 / 2 ^ 52)⟩] : coordDistSlice).map (fun cd => cd.coord.X)).zip ((
            [⟨⟨F64.fin (3602879701896397 / 2 ^ 52), F64.fin (4728779608739021 / 2 ^ 50)⟩, F64.fin 0⟩,
              ⟨⟨F64.fin (8106479329266893 / 2 ^ 53), F64.fin (3602879701896397 / 2 ^ 51)⟩, F64.fin (900719925474099 / 2 ^ 53)⟩,
              ⟨⟨F64.fin (8106479329266893 / 2 ^ 53), F64.fin 8⟩, F64.fin (900719925474099 / 2 ^ 53)⟩,
              ⟨⟨F64.fin 1, F64.fin 2⟩, F64.fin (900719925474099 / 2 ^ 52)⟩] : coordDistSlice).map (fun cd => cd.coord.Y)))).foldl
          (fun s wxy =>
            (s.1 + wxy.1 * (wxy.2.1 - F64.fin (7721530579815525 / 2 ^ 53))
                * (wxy.2.2 - F64.fin (2557803995378035 / 2 ^ 49)),
             s.2 + wxy.1 * F64.pow (wxy.2.1 - F64.fin (7721530579815525 / 2 ^ 53)) 2))
          (F64.fin 0, F64.fin 0)
        = (F64.fin (618925411227277 / 2 ^ 54),
            F64.fin (3300935526545479 / 2 ^ 59)) := by
      decide!
    have bslope :
        (if F64.eq (F64.fin (3300935526545479 / 2 ^ 59)) (F64.fin 0) then F64.fin 0
          else F64.fin (618925411227277 / 2 ^ 54)
            / F64.fin (3300935526545479 / 2 ^ 59))
        = F64.fin (6755399441055741 / 2 ^ 50) := by
      decide!
    have bintercept :
        F64.fin (2557803995378035 / 2 ^ 49)
          - F64.fin (6755399441055741 / 2 ^ 50) * F64.fin (7721530579815525 / 2 ^ 53)
        = F64.fin (-675539944105571 / 2 ^ 50) := by
      decide!
    have bvalue :
        F64.fin (6755399441055741 / 2 ^ 50) * F64.round64 (4 / 5)
          + F64.fin (-675539944105571 / 2 ^ 50)
        = F64.round64 (4200000000000001 / 1000000000000000) := by
      decide!
    exact CalcLOESS_steps _ _ _ _ _ _ _ _ _ (by decide!) bfind bweights
      (wLSRegression_steps _ _ _ _ _ _ _ _ (by decide) bmeanX bmeanY bsums bslope
        bintercept) bvalue

/-- C15, as amended: the outcome of `CalcLOESS` does not depend on the order in
which the (finite) observations are given when no two different observations
have the same x-value: for every query list, every bandwidth and two such
observation lists that are permutations of each other, the two calls return
the same outcome; in particular a second call on the slice as the first call
has left it returns the outcome of the first call. -/
theorem CalcLOESS_order_independent (obs₁ obs₂ : List Observation) (queries : List ℚ) (b : ℚ)
    (h : obs₁.Perm obs₂)
    (hties : ∀ o ∈ obs₁, ∀ o' ∈ obs₁, o.1 = o'.1 → o.2 = o'.2) :
    (CalcLOESS (queries.map F64.fin) (obs₁.map Observation.toCoord) (F64.fin b)).2
        = (CalcLOESS (queries.map F64.fin) (obs₂.map Observation.toCoord) (F64.fin b)).2 ∧
      (CalcLOESS (queries.map F64.fin)
          (CalcLOESS (queries.map F64.fin) (obs₁.map Observation.toCoord) (F64.fin b)).1
          (F64.fin b)).2
        = (CalcLOESS (queries.map F64.fin) (obs₁.map Observation.toCoord) (F64.fin b)).2 := by
  have hfin : ∀ c ∈ obs₁.map Observation.toCoord, c.X.isFinite = true := by
    intro c hc
    obtain ⟨o, _, rfl⟩ := List.mem_map.mp hc
    rfl
  have ht : ∀ a ∈ obs₁.map Observation.toCoord, ∀ c ∈ obs₁.map Observation.toCoord,
      a.X = c.X → a = c := by
    intro a ha c hc hac
    obtain ⟨o, ho, rfl⟩ := List.mem_map.mp ha
    obtain ⟨o', ho', rfl⟩ := List.mem_map.mp hc
    have h₁ : o.1 = o'.1 := by
      have := hac
      simp only [toCoord_X, F64.fin.injEq] at this
      exact this
    have h₂ : o.2 = o'.2 := hties o ho o' ho' h₁
    rw [Prod.ext h₁ h₂]
  constructor
  · exact CalcLOESS_congr _ _ _ _ (h.map _) hfin ht
  · exact (CalcLOESS_congr _ _ _ _ (CalcLOESS_perm _ _ _).symm hfin ht).symm

/-- C15, witness: four observations given in two orders, with bandwidth 1 and
the queries 0.1 and 0.45. -/
theorem CalcLOESS_order_independent_witness :
    (CalcLOESS ([(F64.round64 (1 / 10)).toRat, (F64.round64 (45 / 100)).toRat].map F64.fin)
        (([((F64.round64 (1 / 10)).toRat, 1), (0, 0), ((F64.round64 (7 / 10)).toRat, 5),
            ((F64.round64 (3 / 10)).toRat, 2)] : List Observation).map Observation.toCoord)
        (F64.fin 1)).2
        = (CalcLOESS
            ([(F64.round64 (1 / 10)).toRat, (F64.round64 (45 / 100)).toRat].map F64.fin)
            (([((F64.round64 (3 / 10)).toRat, 2), ((F64.round64 (7 / 10)).toRat, 5),
                ((F64.round64 (1 / 10)).toRat, 1), (0, 0)] : List Observation).map
              Observation.toCoord)
            (F64.fin 1)).2 ∧
      (CalcLOESS ([(F64.round64 (1 / 10)).toRat, (F64.round64 (45 / 100)).toRat].map F64.fin)
          (CalcLOESS
            ([(F64.round64 (1 / 10)).toRat, (F64.round64 (45 / 100)).toRat].map F64.fin)
            (([((F64.round64 (1 / 10)).toRat, 1), (0, 0), ((F64.round64 (7 / 10)).toRat, 5),
                ((F64.round64 (3 / 10)).toRat, 2)] : List Observation).map Observation.toCoord)
            (F64.fin 1)).1
          (F64.fin 1)).2
        = (CalcLOESS
            ([(F64.round64 (1 / 10)).toRat, (F64.round64 (45 / 100)).toRat].map F64.fin)
            (([((F64.round64 (1 / 10)).toRat, 1), (0, 0), ((F64.round64 (7 / 10)).toRat, 5),
                ((F64.round64 (3 / 10)).toRat, 2)] : List Observation).map Observation.toCoord)
            (F64.fin 1)).2 :=
  CalcLOESS_order_independent
    [((F64.round64 (1 / 10)).toRat, 1), (0, 0), ((F64.round64 (7 / 10)).toRat, 5),
      ((F64.round64 (3 / 10)).toRat, 2)]
    [((F64.round64 (3 / 10)).toRat, 2), ((F64.round64 (7 / 10)).toRat, 5),
      ((F64.round64 (1 / 10)).toRat, 1), (0, 0)]
    [(F64.round64 (1 / 10)).toRat, (F64.round64 (45 / 100)).toRat] 1
    (by decide!) (by decide!)

/-- C16: `CoordsToArrays` returns the x-values and the y-values of the
coordinates in input order: both sequences have the length of the input, their
i-th entries are the `X` and the `Y` of the i-th coordinate, and pairing them
index by index gives the input back. -/
theorem CoordsToArrays_spec (coords : List Coord) :
    CoordsToArrays coords = (coords.map Coord.X, coords.map Coord.Y) ∧
      (CoordsToArrays coords).1.length = coords.length ∧
      (CoordsToArrays coords).2.length = coords.length ∧
      (∀ (i : ℕ) (c : Coord), coords[i]? = some c →
        (CoordsToArrays coords).1[i]? = some c.X ∧ (CoordsToArrays coords).2[i]? = some c.Y) ∧
      List.zipWith Coord.mk (CoordsToArrays coords).1 (CoordsToArrays coords).2 = coords := by
  have key : ∀ (l : List Coord) (xs ys : List F64),
      l.foldl (fun acc c => (acc.1 ++ [c.X], acc.2 ++ [c.Y])) (xs, ys)
        = (xs ++ l.map Coord.X, ys ++ l.map Coord.Y) := by
    intro l
    induction l with
    | nil => intro xs ys; simp
    | cons c cs ih => intro xs ys; simp [ih]
  have h : CoordsToArrays coords = (coords.map Coord.X, coords.map Coord.Y) := by
    simpa [CoordsToArrays] using key coords [] []
  rw [h]
  refine ⟨rfl, by simp, by simp, ?_, ?_⟩
  · intro i c hi
    simp [hi]
  · induction coords with
    | nil => rfl
    | cons c cs ih =>
      have h2 : CoordsToArrays cs = (cs.map Coord.X, cs.map Coord.Y) := by
        simpa [CoordsToArrays] using key cs [] []
      simp only [List.map_cons, List.zipWith_cons_cons]
      rw [ih h2]

/-- C16, witness: the first two coordinates of the test of `CoordsToArrays`. -/
theorem CoordsToArrays_spec_witness :
    CoordsToArrays [⟨F64.fin (5578196/10000000), F64.fin (1863654/100000)⟩,
        ⟨F64.fin (20217271/10000000), F64.fin (10349646/100000)⟩]
      = ([F64.fin (5578196/10000000), F64.fin (20217271/10000000)],
          [F64.fin (1863654/100000), F64.fin (10349646/100000)]) :=
  (CoordsToArrays_spec [⟨F64.fin (5578196/10000000), F64.fin (1863654/100000)⟩,
    ⟨F64.fin (20217271/10000000), F64.fin (10349646/100000)⟩]).1

/-- C17, counterexample: the observations `(0.1, 1)` and `(0.7, 1)`, the
bandwidth 0.5 and the target 0.25.  The lower end of the window,
`0.25 - 0.5*(0.7 - 0.1)/2`, lies above the `float64` number 0.1, so no
observation satisfies the inequalities of the claim; `findNearest` computes the
end as exactly the `float64` number 0.1 and returns `(0.1, 1)` at the distance
0.15. -/
theorem findNearest_window_rounds :
    (findNearest
        (([((F64.round64 (1 / 10)).toRat, 1), ((F64.round64 (7 / 10)).toRat, 1)] :
          List Observation).map Observation.toCoord) (F64.fin (1 / 4)) (F64.fin (1 / 2))).2
      = Exec.returned
          ([⟨⟨F64.round64 (1 / 10), F64.fin 1⟩, F64.round64 (15 / 100)⟩], none) ∧
    ([((F64.round64 (1 / 10)).toRat, 1), ((F64.round64 (7 / 10)).toRat, 1)] :
        List Observation).filter
      (fun o => decide
        (1 / 4 - 1 / 2 * specTotalWidth
            [((F64.round64 (1 / 10)).toRat, 1), ((F64.round64 (7 / 10)).toRat, 1)] / 2 ≤ o.1
          ∧ o.1 ≤ 1 / 4 + 1 / 2 * specTotalWidth
            [((F64.round64 (1 / 10)).toRat, 1), ((F64.round64 (7 / 10)).toRat, 1)] / 2))
      = [] := by
  decide!

/-- C17, as amended: for every non-empty list of finite observations, target
`q` and bandwidth `b` in `(0,1]`, `findNearest` returns without error a
rearrangement of exactly the observations whose x satisfies `lo <= x <= hi`
(both ends included), each once per occurrence, where `lo` and `hi` are the
`float64` values of `q - b*W/2` and `q + b*W/2`, every operation rounded, and
`W` is the rounded difference `max x - min x`; each is paired with
`dist = findDist(q, x)`, the absolute value of the rounded difference `q - x`,
which is never negative. -/
theorem findNearest_window (observations : List Observation) (q b : ℚ)
    (hne : observations ≠ []) (hb : 0 < b ∧ b ≤ 1) :
    (∃ nbrs : coordDistSlice,
      (findNearest (observations.map Observation.toCoord) (F64.fin q) (F64.fin b)).2
        = Exec.returned (nbrs, none) ∧
      nbrs.Perm
        ((observations.filter (specInWindow observations q b)).map
          (fun o => { coord := o.toCoord, dist := findDist (F64.fin q) (F64.fin o.1) }))) ∧
      ∀ x y : ℚ, findDist (F64.fin x) (F64.fin y) = F64.abs (F64.round64 (x - y)) ∧
        F64.le (F64.fin 0) (findDist (F64.fin x) (F64.fin y)) = true := by
  refine ⟨?_, findDist_fin⟩
  have h := findNearest_window_eq observations hne (observations.map Observation.toCoord)
    (List.Perm.refl _) q b hb
  refine ⟨_, by rw [h], ?_⟩
  refine (sortSort_perm _ _).trans ?_
  refine (((sortSort_perm CoordSlice.Less (observations.map Observation.toCoord)).filter _).map
    _).trans (List.Perm.of_eq ?_)
  rw [List.filter_map, List.map_map]
  rfl

/-- C17, witness: the observations `(0.1, 1)` and `(0.7, 1)` with the bandwidth
0.5 and the target 0.25, where the rounded lower end of the window is 0.1. -/
theorem findNearest_window_witness :
    (∃ nbrs : coordDistSlice,
      (findNearest
          (([((F64.round64 (1 / 10)).toRat, 1), ((F64.round64 (7 / 10)).toRat, 1)] :
            List Observation).map Observation.toCoord) (F64.fin (1 / 4)) (F64.fin (1 / 2))).2
        = Exec.returned (nbrs, none) ∧
      nbrs.Perm
        ((([((F64.round64 (1 / 10)).toRat, 1), ((F64.round64 (7 / 10)).toRat, 1)] :
            List Observation).filter
            (specInWindow
              [((F64.round64 (1 / 10)).toRat, 1), ((F64.round64 (7 / 10)).toRat, 1)]
              (1 / 4) (1 / 2))).map
          (fun o => { coord := o.toCoord, dist := findDist (F64.fin (1 / 4)) (F64.fin o.1) }))) ∧
      ∀ x y : ℚ, findDist (F64.fin x) (F64.fin y) = F64.abs (F64.round64 (x - y)) ∧
        F64.le (F64.fin 0) (findDist (F64.fin x) (F64.fin y)) = true :=
  findNearest_window [((F64.round64 (1 / 10)).toRat, 1), ((F64.round64 (7 / 10)).toRat, 1)]
    (1 / 4) (1 / 2) (by simp) (by norm_num)

/-- C18: whenever `findNearest` succeeds (on finite observations and a finite
target), its output is in ascending order of `dist`; so when the output is not
empty, the `dist` of its last element, which `tricubeWeightFunction` divides
every distance by, is the largest distance in the output. -/
theorem findNearest_sorted_by_dist (observations : List Observation) (q b : ℚ)
    (after : CoordSlice) (nbrs : coordDistSlice)
    (h : findNearest (observations.map Observation.toCoord) (F64.fin q) (F64.fin b)
          = (after, Exec.returned (nbrs, none))) :
    nbrs.Pairwise (fun x y => F64.le x.dist y.dist = true) ∧
      ∀ last : coordDist, nbrs.getLast? = some last →
        tricubeWeightFunction nbrs
            = Exec.returned (nbrs.map (fun cd =>
                F64.pow (F64.fin 1 - F64.pow (F64.abs (cd.dist / last.dist)) 3) 3)) ∧
          ∀ cd ∈ nbrs, F64.le cd.dist last.dist = true := by
  have hfin : ∀ c ∈ observations.map Observation.toCoord, c.X.isFinite = true := by
    intro c hc
    obtain ⟨o, _, rfl⟩ := List.mem_map.mp hc
    rfl
  have hfinS : ∀ c ∈ sortSort CoordSlice.Less (observations.map Observation.toCoord),
      c.X.isFinite = true := fun c hc => hfin c ((sortSort_perm _ _).mem_iff.mp hc)
  cases hbw : (F64.le (F64.fin b) (F64.fin 0) || F64.gt (F64.fin b) (F64.fin 1)) with
  | true =>
    unfold findNearest at h
    rw [hbw] at h
    simp at h
  | false =>
    by_cases hne : observations.map Observation.toCoord = []
    · rw [hne, findNearest_nil _ _ hbw] at h
      simp at h
    · obtain ⟨first, last1, hf, hl⟩ := sortSort_head_last CoordSlice.Less _ hne
      rw [findNearest_eq _ _ _ hbw first last1 hf hl] at h
      set sel := selectWindow (sortSort CoordSlice.Less (observations.map Observation.toCoord))
        (F64.fin q) (F64.fin q - F64.fin b * (last1.X - first.X) / F64.fin 2)
        (F64.fin q + F64.fin b * (last1.X - first.X) / F64.fin 2) with hsel
      have hselnan : ∀ cd ∈ sel, cd.dist ≠ F64.nan :=
        selectWindow_dist_ne_nan _ q _ _ hfinS
      simp only [Prod.mk.injEq, Exec.returned.injEq, and_true] at h
      obtain ⟨_, rfl⟩ := h
      have hpw := sortSort_dists_sorted sel hselnan
      have hnan : ∀ cd ∈ sortSort coordDistSlice.Less sel, cd.dist ≠ F64.nan :=
        fun cd hcd => hselnan cd ((sortSort_perm _ _).mem_iff.mp hcd)
      refine ⟨hpw, ?_⟩
      intro last hlast
      refine ⟨tricubeWeightFunction_eq _ last hlast, ?_⟩
      intro cd hcd
      obtain ⟨init, hinit⟩ := List.getLast?_eq_some_iff.mp hlast
      rw [hinit] at hcd hpw
      rcases List.mem_append.mp hcd with h1 | h1
      · exact (List.pairwise_append.mp hpw).2.2 cd h1 last (by simp)
      · simp only [List.mem_singleton] at h1
        rw [h1]
        exact F64.le_refl_of_ne_nan _ (hnan last (List.mem_of_getLast?_eq_some hlast))

/-- C18, witness: the observations at x = 0, 4, 1, 1 with bandwidth `1/2` and
target `3/4`: the neighbours come out at the distances `1/4, 1/4, 3/4`. -/
theorem findNearest_sorted_by_dist_witness :
    ([⟨⟨F64.fin 1, F64.fin 2⟩, F64.fin (1/4)⟩, ⟨⟨F64.fin 1, F64.fin 3⟩, F64.fin (1/4)⟩,
        ⟨⟨F64.fin 0, F64.fin 0⟩, F64.fin (3/4)⟩] : coordDistSlice).Pairwise
        (fun x y => F64.le x.dist y.dist = true) ∧
      ∀ last : coordDist,
        ([⟨⟨F64.fin 1, F64.fin 2⟩, F64.fin (1/4)⟩, ⟨⟨F64.fin 1, F64.fin 3⟩, F64.fin (1/4)⟩,
          ⟨⟨F64.fin 0, F64.fin 0⟩, F64.fin (3/4)⟩] : coordDistSlice).getLast? = some last →
        tricubeWeightFunction
            [⟨⟨F64.fin 1, F64.fin 2⟩, F64.fin (1/4)⟩, ⟨⟨F64.fin 1, F64.fin 3⟩, F64.fin (1/4)⟩,
              ⟨⟨F64.fin 0, F64.fin 0⟩, F64.fin (3/4)⟩]
            = Exec.returned
              (([⟨⟨F64.fin 1, F64.fin 2⟩, F64.fin (1/4)⟩,
                ⟨⟨F64.fin 1, F64.fin 3⟩, F64.fin (1/4)⟩,
                ⟨⟨F64.fin 0, F64.fin 0⟩, F64.fin (3/4)⟩] : coordDistSlice).map (fun cd =>
                F64.pow (F64.fin 1 - F64.pow (F64.abs (cd.dist / last.dist)) 3) 3)) ∧
          ∀ cd ∈ ([⟨⟨F64.fin 1, F64.fin 2⟩, F64.fin (1/4)⟩,
              ⟨⟨F64.fin 1, F64.fin 3⟩, F64.fin (1/4)⟩,
              ⟨⟨F64.fin 0, F64.fin 0⟩, F64.fin (3/4)⟩] : coordDistSlice),
            F64.le cd.dist last.dist = true :=
  findNearest_sorted_by_dist [(0, 0), (4, 1), (1, 2), (1, 3)] (3/4) (1/2)
    [⟨F64.fin 0, F64.fin 0⟩, ⟨F64.fin 1, F64.fin 2⟩, ⟨F64.fin 1, F64.fin 3⟩,
      ⟨F64.fin 4, F64.fin 1⟩]
    [⟨⟨F64.fin 1, F64.fin 2⟩, F64.fin (1/4)⟩, ⟨⟨F64.fin 1, F64.fin 3⟩, F64.fin (1/4)⟩,
      ⟨⟨F64.fin 0, F64.fin 0⟩, F64.fin (3/4)⟩]
    (by decide!)

/-- C19: through `CalcLOESS` the length-mismatch error is never produced: the
weights `tricubeWeightFunction` returns are as many as the neighbours, a
bandwidth that passed the check of `CalcLOESS` passes the check of
`findNearest`, and so whenever `CalcLOESS` returns an error, the bandwidth is
`<= 0` or `> 1` and the error is the bandwidth error of `CalcLOESS`. -/
theorem CalcLOESS_error_only_bandwidth (estimationPoints : List F64)
    (coordinates : List Coord) (bandwidth : F64) :
    (∀ (sortedCoordDists : coordDistSlice) (weights : List F64),
        tricubeWeightFunction sortedCoordDists = Exec.returned weights →
        weights.length = sortedCoordDists.length ∧
          (wLSRegression sortedCoordDists weights).2.2 = none) ∧
      ((F64.le bandwidth (F64.fin 0) || F64.gt bandwidth (F64.fin 1)) = false →
        ∀ (targetX : F64) (sortedCoords after : CoordSlice) (distances : coordDistSlice)
          (e : String),
          findNearest sortedCoords targetX bandwidth
            ≠ (after, Exec.returned (distances, some e))) ∧
      (∀ (after : CoordSlice) (loessPoints : List Coord) (e : String),
        CalcLOESS estimationPoints coordinates bandwidth
            = (after, Exec.returned (loessPoints, some e)) →
        (F64.le bandwidth (F64.fin 0) = true ∨ F64.gt bandwidth (F64.fin 1) = true) ∧
          e = calcLOESSError) := by
  refine ⟨?_, ?_, ?_⟩
  · intro n ws h
    have hl := tricubeWeightFunction_length n ws h
    exact ⟨hl, wLSRegression_no_error n ws hl⟩
  · intro hb targetX sortedCoords after distances e
    exact findNearest_no_error sortedCoords targetX bandwidth hb after distances e
  · intro after loessPoints e h
    unfold CalcLOESS at h
    split at h
    · rename_i hb
      simp only [Prod.mk.injEq, Exec.returned.injEq, Option.some.injEq] at h
      exact ⟨by simpa using hb, h.2.2.symm⟩
    · rename_i hb
      exact absurd h (calcLoop_no_error bandwidth (by simpa using hb) _ _ _ _ _ _)

/-- C19, witness: the bandwidth `3/2`, for which `CalcLOESS` returns its
bandwidth error. -/
theorem CalcLOESS_error_only_bandwidth_witness :
    (F64.le (F64.fin (3/2)) (F64.fin 0) = true ∨ F64.gt (F64.fin (3/2)) (F64.fin 1) = true) ∧
      calcLOESSError = calcLOESSError :=
  (CalcLOESS_error_only_bandwidth [F64.fin 1] [⟨F64.fin 0, F64.fin 0⟩] (F64.fin (3/2))).2.2
    [⟨F64.fin 0, F64.fin 0⟩] [] calcLOESSError (by decide!)

/-- C20, counterexample: the points `(1, 4)`, `(2, 7)`, `(4, 13)` of the line
`y = 3*x + 1` with the three weights 0.3 (their sum and the sum of the
`w*(x - mean_x)^2` are not zero): `wLSRegression` returns the slope
3.0000000000000004, the `float64` number after 3, and not 3. -/
theorem wLSRegression_linear_data_rounds :
    wLSRegression
        [⟨⟨F64.fin 1, F64.fin 4⟩, F64.fin 0⟩, ⟨⟨F64.fin 2, F64.fin 7⟩, F64.fin 0⟩,
          ⟨⟨F64.fin 4, F64.fin 13⟩, F64.fin 0⟩]
        [F64.round64 (3 / 10), F64.round64 (3 / 10), F64.round64 (3 / 10)]
      = (F64.fin (3 + 1 / 2 ^ 51), F64.fin 1, none) ∧
    F64.fin (3 + 1 / 2 ^ 51) ≠ F64.fin 3 := by
  decide!

/-- C20, as amended: for all `a` and `b`, every neighbourhood of finite points
that all satisfy `y = a*x + b` and every equal-length sequence of finite weights
with a non-zero sum and a non-zero `sum_i w_i*(x_i - mean_x)^2`, on which no
`float64` operation of `wLSRegression` rounds, `wLSRegression` returns slope `a`
and intercept `b` without error, so that the value `slope*q + intercept` that
`CalcLOESS` computes from the fit for a query `q` is `a*q + b` when its product
and its sum do not round either. -/
theorem wLSRegression_linear_data (coordinates : coordDistSlice) (weights : List F64)
    (a b : ℚ)
    (hlen : weights.length = coordinates.length)
    (hx : ∀ cd ∈ coordinates, cd.coord.X.isFinite = true)
    (hy : ∀ cd ∈ coordinates, cd.coord.Y = F64.fin (a * cd.coord.X.toRat + b))
    (hw : ∀ w ∈ weights, w.isFinite = true)
    (hs : (weights.map F64.toRat).sum ≠ 0)
    (hden : ((triples coordinates weights).map (fun t => t.1 *
      (t.2.1 - ((triples coordinates weights).map (fun t => t.2.1 * t.1)).sum
        / (weights.map F64.toRat).sum) ^ 2)).sum ≠ 0)
    (hexact : wLSRegressionExact (triples coordinates weights) = true) :
    wLSRegression coordinates weights = (F64.fin a, F64.fin b, none) ∧
      ∀ q : ℚ, F64.fin a * F64.fin q = F64.fin (a * q) →
        F64.fin (a * q) + F64.fin b = F64.fin (a * q + b) →
        (wLSRegression coordinates weights).1 * F64.fin q
            + (wLSRegression coordinates weights).2.1
          = F64.fin (a * q + b) := by
  have hs1 : ((triples coordinates weights).map (fun t => t.1)).sum ≠ 0 := by
    rw [triples_weights coordinates weights hlen]; exact hs
  have hc : ∀ cd ∈ coordinates, cd.coord.X.isFinite = true ∧ cd.coord.Y.isFinite = true :=
    fun cd hcd => ⟨hx cd hcd, by rw [hy cd hcd]; rfl⟩
  have hlin : ∀ t ∈ triples coordinates weights, t.2.2 = a * t.2.1 + b := by
    intro t ht
    obtain ⟨p, hp, rfl⟩ := List.mem_map.mp ht
    show p.1.coord.Y.toRat = a * p.1.coord.X.toRat + b
    rw [hy _ (List.of_mem_zip hp).1]; rfl
  rw [← triples_weights coordinates weights hlen] at hden
  have hfit : wLSRegression coordinates weights = (F64.fin a, F64.fin b, none) := by
    rw [wLSRegression_exact coordinates weights hlen hc hw hexact,
      ratFit_linear _ a b hlin hs1 hden]
  refine ⟨hfit, fun q h1 h2 => ?_⟩
  rw [hfit]
  simp only
  rw [h1, h2]

/-- C20, witness: the points `(0, 1)`, `(1, 4)`, `(3, 10)`, `(4, 13)` of the
line `y = 3*x + 1` with the weights 1; no operation rounds. -/
theorem wLSRegression_linear_data_witness :
    wLSRegression
        [⟨⟨F64.fin 0, F64.fin 1⟩, F64.fin 0⟩, ⟨⟨F64.fin 1, F64.fin 4⟩, F64.fin 1⟩,
          ⟨⟨F64.fin 3, F64.fin 10⟩, F64.fin 3⟩, ⟨⟨F64.fin 4, F64.fin 13⟩, F64.fin 4⟩]
        [F64.fin 1, F64.fin 1, F64.fin 1, F64.fin 1]
      = (F64.fin 3, F64.fin 1, none) ∧
    (wLSRegression
        [⟨⟨F64.fin 0, F64.fin 1⟩, F64.fin 0⟩, ⟨⟨F64.fin 1, F64.fin 4⟩, F64.fin 1⟩,
          ⟨⟨F64.fin 3, F64.fin 10⟩, F64.fin 3⟩, ⟨⟨F64.fin 4, F64.fin 13⟩, F64.fin 4⟩]
        [F64.fin 1, F64.fin 1, F64.fin 1, F64.fin 1]).1 * F64.fin 2
      + (wLSRegression
        [⟨⟨F64.fin 0, F64.fin 1⟩, F64.fin 0⟩, ⟨⟨F64.fin 1, F64.fin 4⟩, F64.fin 1⟩,
          ⟨⟨F64.fin 3, F64.fin 10⟩, F64.fin 3⟩, ⟨⟨F64.fin 4, F64.fin 13⟩, F64.fin 4⟩]
        [F64.fin 1, F64.fin 1, F64.fin 1, F64.fin 1]).2.1
      = F64.fin (3 * 2 + 1) :=
  ⟨(wLSRegression_linear_data
      [⟨⟨F64.fin 0, F64.fin 1⟩, F64.fin 0⟩, ⟨⟨F64.fin 1, F64.fin 4⟩, F64.fin 1⟩,
        ⟨⟨F64.fin 3, F64.fin 10⟩, F64.fin 3⟩, ⟨⟨F64.fin 4, F64.fin 13⟩, F64.fin 4⟩]
      [F64.fin 1, F64.fin 1, F64.fin 1, F64.fin 1] 3 1
      (by decide) (by decide) (by decide!) (by decide)
      (by decide!) (by decide!) (by decide!)).1,
   (wLSRegression_linear_data
      [⟨⟨F64.fin 0, F64.fin 1⟩, F64.fin 0⟩, ⟨⟨F64.fin 1, F64.fin 4⟩, F64.fin 1⟩,
        ⟨⟨F64.fin 3, F64.fin 10⟩, F64.fin 3⟩, ⟨⟨F64.fin 4, F64.fin 13⟩, F64.fin 4⟩]
      [F64.fin 1, F64.fin 1, F64.fin 1, F64.fin 1] 3 1
      (by decide) (by decide) (by decide!) (by decide)
      (by decide!) (by decide!) (by decide!)).2 2 (by decide!) (by decide!)⟩

end Lowess
